import Mathlib

/-!
# cdflow2: container lifecycle, release metadata handoff and the destroy pipeline

A shallow embedding of

* `docker/official/client.go` (`Client.Run`, `Client.await`,
  `Client.streamHijackedResponse`, `Client.Exec`),
* `release/container/container.go` (`Run`, `getReleaseMetadataFromContainer`,
  `mapToDockerEnv`), with the part of `encoding/json` it calls,
* `destroy/command.go` (`ParseArgs`, `RunCommand`),

followed by the properties proved about them.

The engine API, the Go standard library and the collaborators that live in other
packages are not part of these files.  Each call to one of them is recorded in a
log of calls, and what the call answers is read from a record of answers (`Engine`,
`ExecEngine`, `Pipeline`), so that a theorem quantified over that record covers
every way the collaborators can behave.
-/

namespace Cdflow2

/-! ## Go values shared by all packages -/

/-- Go `error` values. `errorString` is what `errors.New` and a `fmt.Errorf` without a wrapping
verb build, `wrapError` is what `fmt.Errorf` with one wrapping verb builds: a message and the
wrapped error. A nil `error` is `none : Option GoError`. -/
inductive GoError where
  | errorString (msg : String)
  | wrapError (msg : String) (inner : GoError)
  deriving DecidableEq, Repr

/-- The method `Error()`: the message of an error. -/
def GoError.Error : GoError → String
  | .errorString msg => msg
  | .wrapError msg _ => msg

/-- The method `Unwrap()`: the wrapped error, if any. -/
def GoError.Unwrap : GoError → Option GoError
  | .errorString _ => none
  | .wrapError _ inner => some inner

/-- The chain `errors.Is` walks: `target` is `err` itself or is reached from it by `Unwrap`. -/
def GoError.Wraps : GoError → GoError → Prop
  | .errorString msg, target => GoError.errorString msg = target
  | .wrapError msg inner, target => GoError.wrapError msg inner = target ∨ inner.Wraps target

/-- The text `sub` occurs in the text `msg` as a contiguous run of characters. -/
def Mentions (msg sub : String) : Prop := sub.data <:+: msg.data

instance (msg sub : String) : Decidable (Mentions msg sub) :=
  inferInstanceAs (Decidable (sub.data <:+: msg.data))

/-- The verb `%d` of package `fmt` applied to an `int`: decimal digits, with a leading minus
sign for a negative number. -/
def fmtDecimal (n : Int) : String := toString n

/-- The Go conversion `string(n)` of an `int`: the UTF-8 text of the one code point `n`, and the
replacement character U+FFFD when `n` is not a valid code point. It is not the decimal text. -/
def goStringOfInt (n : Int) : String :=
  if 0 ≤ n ∧ n.toNat.isValidChar then String.singleton (Char.ofNat n.toNat)
  else String.singleton (Char.ofNat 0xFFFD)

/-- A Go `map[string]string` that is not nil, as its list of entries. -/
abbrev StringMap := List (String × String)

/-- A Go variable of type `map[string]string`: `none` is the nil map. -/
abbrev GoMap := Option StringMap

/-- A Go `[]byte`. -/
abbrev Bytes := List UInt8

/-! ## The engine, as seen by `docker/official/client.go` -/

/-- What reading a tar stream with `archive/tar` finds: the end of the archive, a header that
cannot be read, or an entry with its content followed by the rest of the stream. -/
inductive TarStream where
  | eof
  | invalid (err : GoError)
  | entry (name : String) (content : Bytes) (rest : TarStream)
  deriving DecidableEq, Repr

/-- The error `io.EOF`. -/
def ioEOF : GoError := .errorString "EOF"

/-- The call `tarReader.Next()` on a fresh reader: it fails at the end of the archive and on an
unreadable header, and otherwise positions the reader on the first entry. -/
def TarStream.Next : TarStream → Except GoError (String × Bytes)
  | .eof => .error ioEOF
  | .invalid err => .error err
  | .entry name content _ => .ok (name, content)

/-- The part of `types.ContainerJSON` that `Client.Run` reads. -/
structure ContainerJSON where
  ID : String
  Running : Bool
  ExitCode : Int
  deriving DecidableEq, Repr

/-- How the `select` of `streamHijackedResponse` ends: the output copier reports on
`outputDone` (with the error of `stdcopy.StdCopy`, possibly nil), or the client context is done
first and `context.Err()` is returned. -/
inductive StreamEnd where
  | outputDone (err : Option GoError)
  | contextDone (err : GoError)
  deriving DecidableEq, Repr

/-- The answers of the engine API to the calls of one `Client.Run`. -/
structure Engine where
  ContainerCreate : Except GoError String
  ContainerAttach : Option GoError
  ContainerStart : Option GoError
  streamEnd : StreamEnd
  ContainerInspect : Except GoError ContainerJSON
  ContainerRemove : Option GoError
  CopyFromContainer : String → String → Except GoError TarStream

/-- The calls a run makes, in the order it makes them. -/
inductive Call where
  | containerCreate (image : String) (openStdin : Bool)
  | containerAttach (id : String) (stdin : Bool)
  | copyInput
  | copyOutput
  | containerStart (id : String)
  | startedSend (id : String)
  | containerInspect (id : String)
  | beforeRemove (id : String)
  | containerRemove (id : String)
  | copyFromContainer (id : String) (path : String)
  | execCreate (id : String) (cmd : List String)
  | execAttach (execID : String)
  | execStart (execID : String)
  | execInspect (execID : String)
  | attachClose
  deriving DecidableEq, Repr

/-- What a `BeforeRemove` callback does: the calls it makes, the error it returns and the new
value of the variables its closure captured. -/
structure HookResult (σ : Type) where
  calls : List Call
  err : Option GoError
  state : σ

/-- The fields of `docker.RunOptions` that `Client.Run` uses. `σ` is the type of the variables
captured by the `BeforeRemove` closure; `InputStream` and `Started` record whether the field is
non-nil. -/
structure RunOptions (σ : Type) where
  Image : String
  WorkingDir : String
  Entrypoint : List String
  Cmd : List String
  Env : List String
  Binds : List String
  NamePrefix : String
  Init : Bool
  InputStream : Bool
  Started : Bool
  SuccessStatus : Int
  BeforeRemove : Option (String → σ → HookResult σ)

/-- How a call of a Go function ends: it returns its `error` result, or it panics. -/
inductive Outcome where
  | returned (err : Option GoError)
  | panicked (msg : String)
  deriving DecidableEq, Repr

/-- The result of one `Client.Run`: the calls made, how it ended and the captured variables. -/
structure RunResult (σ : Type) where
  calls : List Call
  outcome : Outcome
  state : σ

/-- The method `streamHijackedResponse`: start the input copier when there is an input stream,
start the output copier, call `start`, and when `start` succeeded wait for the output copier
or for the context. `start` is given as the calls it makes and the error it returns. -/
def Client.streamHijackedResponse (streamEnd : StreamEnd) (inputStream : Bool)
    (start : List Call × Option GoError) : List Call × Option GoError :=
  let wired := (if inputStream then [Call.copyInput] else []) ++ [Call.copyOutput]
  match start.2 with
  | some err => (wired ++ start.1, some err)
  | none =>
    match streamEnd with
    | .outputDone err => (wired ++ start.1, err)
    | .contextDone err => (wired ++ start.1, some err)

/-- The method `await`: attach, then stream with a `start` callback that starts the container
and, when it started and `started` is non-nil, sends the container id on `started`. -/
def Client.await (eng : Engine) (container : String) (inputStream : Bool) (started : Bool) :
    List Call × Option GoError :=
  let stdin := inputStream
  match eng.ContainerAttach with
  | some err => ([Call.containerAttach container stdin], some err)
  | none =>
    let start : List Call × Option GoError :=
      match eng.ContainerStart with
      | some err => ([Call.containerStart container], some err)
      | none =>
        ([Call.containerStart container] ++ (if started then [Call.startedSend container] else []),
          none)
    let streamed := Client.streamHijackedResponse eng.streamEnd inputStream start
    ([Call.containerAttach container stdin] ++ streamed.1, streamed.2)

/-- The message of the error `Client.Run` builds for an unsuccessful exit code. -/
def exitCodeMessage (id : String) (exitCode : Int) : String :=
  "container " ++ id ++ " exited with unsuccessful exit code " ++ fmtDecimal exitCode

/-- The error `Client.Run` builds around the error of the `BeforeRemove` callback. -/
def beforeRemoveError (err : GoError) : GoError :=
  .wrapError ("error in BeforeRemove function for container: " ++ err.Error) err

/-- The method `Client.Run` of `docker/official/client.go`. -/
def Client.Run {σ : Type} (eng : Engine) (options : RunOptions σ) (s : σ) : RunResult σ :=
  let stdin := options.InputStream
  let created := [Call.containerCreate options.Image stdin]
  match eng.ContainerCreate with
  | .error err => ⟨created, .returned (some err), s⟩
  | .ok id =>
    let awaited := Client.await eng id options.InputStream options.Started
    match awaited.2 with
    | some err => ⟨created ++ awaited.1, .returned (some err), s⟩
    | none =>
      let inspected := created ++ awaited.1 ++ [Call.containerInspect id]
      match eng.ContainerInspect with
      | .error err => ⟨inspected, .returned (some err), s⟩
      | .ok result =>
        if result.Running then
          ⟨inspected, .panicked "unexpected container still running:", s⟩
        else if result.ExitCode ≠ options.SuccessStatus then
          ⟨inspected,
            .returned (some (.errorString (exitCodeMessage result.ID result.ExitCode))), s⟩
        else
          match options.BeforeRemove with
          | some hook =>
            let hooked := hook id s
            match hooked.err with
            | some err =>
              ⟨inspected ++ [Call.beforeRemove id] ++ hooked.calls,
                .returned (some (beforeRemoveError err)), hooked.state⟩
            | none =>
              ⟨inspected ++ [Call.beforeRemove id] ++ hooked.calls ++ [Call.containerRemove id],
                .returned eng.ContainerRemove, hooked.state⟩
          | none => ⟨inspected ++ [Call.containerRemove id], .returned eng.ContainerRemove, s⟩

/-- The number of `ContainerCreate` calls that succeeded in a run: one when the engine answered
the create call of the run with an id, none otherwise. -/
def createdCount (eng : Engine) : Nat :=
  match eng.ContainerCreate with
  | .ok _ => 1
  | .error _ => 0

/-- The number of `ContainerRemove` calls in a log of calls. -/
def removeCount (calls : List Call) : Nat :=
  (calls.filter fun c => match c with
    | .containerRemove _ => true
    | _ => false).length

/-- The number of `BeforeRemove` invocations in a log of calls. -/
def hookCount (calls : List Call) : Nat :=
  (calls.filter fun c => match c with
    | .beforeRemove _ => true
    | _ => false).length

/-! ### `Client.Exec` -/

/-- The answers of the engine API to the calls of one `Client.Exec`. -/
structure ExecEngine where
  ContainerExecCreate : Except GoError String
  ContainerExecAttach : Option GoError
  ContainerExecStart : Option GoError
  streamEnd : StreamEnd
  ContainerExecInspect : Except GoError Int

/-- The fields of `docker.ExecOptions` that `Client.Exec` uses. -/
structure ExecOptions where
  ID : String
  Cmd : List String

/-- The message of the error `Client.Exec` builds for a non-zero exit code: the exit code goes
through the conversion `string(details.ExitCode)`. -/
def execStatusMessage (exitCode : Int) : String :=
  "exec process exited with error status code " ++ goStringOfInt exitCode

/-- The method `Client.Exec` of `docker/official/client.go`: the calls made and the returned
error. The deferred `attachResponse.Close()` runs on every return after a successful attach. -/
def Client.Exec (eng : ExecEngine) (options : ExecOptions) : List Call × Option GoError :=
  let created := [Call.execCreate options.ID options.Cmd]
  match eng.ContainerExecCreate with
  | .error err =>
    (created, some (.wrapError ("error creating docker exec: " ++ err.Error) err))
  | .ok execID =>
    match eng.ContainerExecAttach with
    | some err =>
      (created ++ [Call.execAttach execID],
        some (.wrapError ("error attaching to docker exec: " ++ err.Error) err))
    | none =>
      let start : List Call × Option GoError := ([Call.execStart execID], eng.ContainerExecStart)
      let streamed := Client.streamHijackedResponse eng.streamEnd false start
      let attached := created ++ [Call.execAttach execID] ++ streamed.1
      match streamed.2 with
      | some err =>
        (attached ++ [Call.attachClose],
          some (.wrapError ("error streaming data from exec: " ++ err.Error) err))
      | none =>
        match eng.ContainerExecInspect with
        | .error err =>
          (attached ++ [Call.execInspect execID, Call.attachClose],
            some (.wrapError ("error inspecting exec: " ++ err.Error) err))
        | .ok exitCode =>
          if exitCode ≠ 0 then
            (attached ++ [Call.execInspect execID, Call.attachClose],
              some (.errorString (execStatusMessage exitCode)))
          else
            (attached ++ [Call.execInspect execID, Call.attachClose], none)

/-! ## `encoding/json` for a `map[string]string`

The release metadata is a JSON object of strings, read with `json.Unmarshal` of the Go standard
library. What follows is that part of the library: the UTF-8 form of a string, the text
`json.Marshal` writes for a `map[string]string`, and the decoding of `json.Unmarshal` into a
`map[string]string` variable. -/

/-- The replacement character U+FFFD, `utf8.RuneError`. -/
def runeError : Char := Char.ofNat 0xFFFD

/-- The function `utf8.EncodeRune` on a valid code point: its one to four bytes. -/
def utf8Bytes (c : Char) : Bytes :=
  let n := c.toNat
  if n < 0x80 then [UInt8.ofNat n]
  else if n < 0x800 then [UInt8.ofNat (0xC0 + n / 0x40), UInt8.ofNat (0x80 + n % 0x40)]
  else if n < 0x10000 then
    [UInt8.ofNat (0xE0 + n / 0x1000), UInt8.ofNat (0x80 + n / 0x40 % 0x40),
      UInt8.ofNat (0x80 + n % 0x40)]
  else
    [UInt8.ofNat (0xF0 + n / 0x40000), UInt8.ofNat (0x80 + n / 0x1000 % 0x40),
      UInt8.ofNat (0x80 + n / 0x40 % 0x40), UInt8.ofNat (0x80 + n % 0x40)]

/-- Whether a byte is a UTF-8 continuation byte, `0x80` to `0xBF`. -/
def isContinuation (b : UInt8) : Bool := 0x80 ≤ b.toNat && b.toNat ≤ 0xBF

/-- The function `utf8.DecodeRune`: the first code point of the bytes and the number of bytes it
takes. Bytes that do not start a shortest-form encoding of a valid code point give
`utf8.RuneError` and the width 1. -/
def utf8DecodeRune : Bytes → Char × Nat
  | [] => (runeError, 0)
  | b0 :: rest =>
    let n0 := b0.toNat
    if n0 < 0x80 then (Char.ofNat n0, 1)
    else if 0xC2 ≤ n0 ∧ n0 ≤ 0xDF then
      match rest with
      | b1 :: _ =>
        if isContinuation b1 then (Char.ofNat ((n0 - 0xC0) * 0x40 + (b1.toNat - 0x80)), 2)
        else (runeError, 1)
      | _ => (runeError, 1)
    else if 0xE0 ≤ n0 ∧ n0 ≤ 0xEF then
      match rest with
      | b1 :: b2 :: _ =>
        let v := (n0 - 0xE0) * 0x1000 + (b1.toNat - 0x80) * 0x40 + (b2.toNat - 0x80)
        if isContinuation b1 ∧ isContinuation b2 ∧ 0x800 ≤ v ∧ ¬ (0xD800 ≤ v ∧ v ≤ 0xDFFF) then
          (Char.ofNat v, 3)
        else (runeError, 1)
      | _ => (runeError, 1)
    else if 0xF0 ≤ n0 ∧ n0 ≤ 0xF4 then
      match rest with
      | b1 :: b2 :: b3 :: _ =>
        let v := (n0 - 0xF0) * 0x40000 + (b1.toNat - 0x80) * 0x1000 + (b2.toNat - 0x80) * 0x40 +
          (b3.toNat - 0x80)
        if isContinuation b1 ∧ isContinuation b2 ∧ isContinuation b3 ∧ 0x10000 ≤ v ∧
            v < 0x110000 then
          (Char.ofNat v, 4)
        else (runeError, 1)
      | _ => (runeError, 1)
    else (runeError, 1)

/-- The lower-case hexadecimal digit of a number below 16, as `json.Marshal` writes it. -/
def hexDigit (n : Nat) : UInt8 :=
  if n < 10 then UInt8.ofNat (0x30 + n) else UInt8.ofNat (0x57 + n)

/-- The value of a hexadecimal digit of either case; `none` for any other byte. -/
def hexValue (b : UInt8) : Option Nat :=
  let n := b.toNat
  if 0x30 ≤ n ∧ n ≤ 0x39 then some (n - 0x30)
  else if 0x61 ≤ n ∧ n ≤ 0x66 then some (n - 0x57)
  else if 0x41 ≤ n ∧ n ≤ 0x46 then some (n - 0x37)
  else none

/-- The value of four hexadecimal digits, the `getu4` of the decoder. -/
def hexValue4 (h1 h2 h3 h4 : UInt8) : Option Nat :=
  match hexValue h1, hexValue h2, hexValue h3, hexValue h4 with
  | some a, some b, some c, some d => some (((a * 16 + b) * 16 + c) * 16 + d)
  | _, _, _, _ => none

/-- What `json.Marshal` writes for one character of a string: a backslash before the quote and
the backslash, the short escapes of line feed, carriage return and tab, `\u00XX` for the other
control characters and for `<`, `>` and `&`, `\u2028` and `\u2029` for these two, and the UTF-8
bytes of every other character, non-ASCII included. Later versions of the library also
shorten backspace and form feed to `\b` and `\f`, which `jsonStringStep` reads as the same
characters. -/
def jsonEscapeChar (c : Char) : Bytes :=
  let n := c.toNat
  if n = 0x22 then [0x5C, 0x22]
  else if n = 0x5C then [0x5C, 0x5C]
  else if n = 0x0A then [0x5C, 0x6E]
  else if n = 0x0D then [0x5C, 0x72]
  else if n = 0x09 then [0x5C, 0x74]
  else if n < 0x20 ∨ n = 0x3C ∨ n = 0x3E ∨ n = 0x26 then
    [0x5C, 0x75, 0x30, 0x30, hexDigit (n / 16), hexDigit (n % 16)]
  else if n = 0x2028 ∨ n = 0x2029 then
    [0x5C, 0x75, 0x32, 0x30, 0x32, hexDigit (n % 16)]
  else utf8Bytes c

/-- The escaped characters of a string, without the surrounding quotes. -/
def jsonEscape : List Char → Bytes
  | [] => []
  | c :: rest => jsonEscapeChar c ++ jsonEscape rest

/-- The JSON string literal of a string. -/
def jsonQuote (s : String) : Bytes := [0x22] ++ jsonEscape s.data ++ [0x22]

/-- One member of a JSON object: the key, a colon, the value. -/
def jsonMember (entry : String × String) : Bytes :=
  jsonQuote entry.1 ++ [0x3A] ++ jsonQuote entry.2

/-- The members of a JSON object, separated by commas, in the order of the list. -/
def jsonMembers : StringMap → Bytes
  | [] => []
  | [entry] => jsonMember entry
  | entry :: rest => jsonMember entry ++ [0x2C] ++ jsonMembers rest

/-- The JSON encoding of a mapping, as `json.Marshal` writes a `map[string]string`: an object
without white space, its members in the order in which the writer lists the entries (the order
of the list; `json.Marshal` itself lists them by ascending key). -/
def jsonEncode (m : StringMap) : Bytes := [0x7B] ++ jsonMembers m ++ [0x7D]

/-- What the decoder finds at a position inside a string literal: the closing quote, a character
that takes `width` bytes of the text, or bytes that are not allowed there. -/
inductive StringStep where
  | close
  | char (c : Char) (width : Nat)
  | invalid
  deriving DecidableEq, Repr

/-- The pair of UTF-16 surrogates written as two `\u` escapes, `utf16.DecodeRune`: the code
point of a high surrogate followed by a low one. -/
def surrogatePair (high low : Nat) : Option Char :=
  if 0xD800 ≤ high ∧ high ≤ 0xDBFF ∧ 0xDC00 ≤ low ∧ low ≤ 0xDFFF then
    some (Char.ofNat (0x10000 + (high - 0xD800) * 0x400 + (low - 0xDC00)))
  else none

/-- The character at the head of the rest of a string literal, as the scanner and `unquote` of
`encoding/json` read it: the closing quote; an escape (the eight short ones, or `\u` with four
hexadecimal digits, where a surrogate is joined with a following low surrogate escape and is
U+FFFD otherwise); no control character; and otherwise the result of `utf8.DecodeRune`. -/
def jsonStringStep : Bytes → StringStep
  | [] => .invalid
  | b :: rest =>
    if b.toNat = 0x22 then .close
    else if b.toNat = 0x5C then
      match rest with
      | [] => .invalid
      | e :: rest1 =>
        if e.toNat = 0x22 then .char (Char.ofNat 0x22) 2
        else if e.toNat = 0x5C then .char (Char.ofNat 0x5C) 2
        else if e.toNat = 0x2F then .char (Char.ofNat 0x2F) 2
        else if e.toNat = 0x62 then .char (Char.ofNat 0x08) 2
        else if e.toNat = 0x66 then .char (Char.ofNat 0x0C) 2
        else if e.toNat = 0x6E then .char (Char.ofNat 0x0A) 2
        else if e.toNat = 0x72 then .char (Char.ofNat 0x0D) 2
        else if e.toNat = 0x74 then .char (Char.ofNat 0x09) 2
        else if e.toNat = 0x75 then
          match rest1 with
          | h1 :: h2 :: h3 :: h4 :: rest2 =>
            match hexValue4 h1 h2 h3 h4 with
            | none => .invalid
            | some v =>
              if 0xD800 ≤ v ∧ v ≤ 0xDFFF then
                match rest2 with
                | b1 :: b2 :: k1 :: k2 :: k3 :: k4 :: _ =>
                  if b1.toNat = 0x5C ∧ b2.toNat = 0x75 then
                    match hexValue4 k1 k2 k3 k4 with
                    | some low =>
                      match surrogatePair v low with
                      | some c => .char c 12
                      | none => .char runeError 6
                    | none => .char runeError 6
                  else .char runeError 6
                | _ => .char runeError 6
              else .char (Char.ofNat v) 6
          | _ => .invalid
        else .invalid
    else if b.toNat < 0x20 then .invalid
    else .char (utf8DecodeRune (b :: rest)).1 (utf8DecodeRune (b :: rest)).2

/-- The rest of a string literal after its opening quote: the string and the bytes after the
closing quote, or `none` when the literal is not valid. The literal is read one character at a
time; `skip` is the number of bytes of the character just read that are still to be passed
over, and `acc` holds the characters read so far, last first. -/
def jsonStringBody : Nat → Bytes → List Char → Option (String × Bytes)
  | _, [], _ => none
  | skip + 1, _ :: rest, acc => jsonStringBody skip rest acc
  | 0, b :: rest, acc =>
    match jsonStringStep (b :: rest) with
    | .invalid => none
    | .close => some (String.mk acc.reverse, rest)
    | .char c width => jsonStringBody (width - 1) rest (c :: acc)

/-- A string literal at the head of the bytes. -/
def jsonString : Bytes → Option (String × Bytes)
  | [] => none
  | b :: rest => if b.toNat = 0x22 then jsonStringBody 0 rest [] else none

/-- Whether a byte is JSON white space: space, tab, line feed or carriage return. -/
def isSpace (b : UInt8) : Bool :=
  b.toNat = 0x20 || b.toNat = 0x09 || b.toNat = 0x0A || b.toNat = 0x0D

/-- The bytes after the leading white space. -/
def skipSpace : Bytes → Bytes
  | [] => []
  | b :: rest => if isSpace b then skipSpace rest else b :: rest

/-- The value of a member when the target is a Go `string`: a string literal, or `null`, which
leaves the element at its zero value, the empty string. A number, a boolean, an array or an
object cannot be stored in a `string` and makes `json.Unmarshal` fail. -/
def jsonMemberValue : Bytes → Option (String × Bytes)
  | [] => none
  | b :: rest =>
    if b.toNat = 0x22 then jsonStringBody 0 rest []
    else
      match rest with
      | b2 :: b3 :: b4 :: rest1 =>
        if b.toNat = 0x6E ∧ b2.toNat = 0x75 ∧ b3.toNat = 0x6C ∧ b4.toNat = 0x6C then
          some ("", rest1)
        else none
      | _ => none

/-- The assignment `m[key] = value` on the list of entries: the value of an entry with this key
is replaced, and otherwise the entry is added. -/
def insertEntry : StringMap → String → String → StringMap
  | [], key, value => [(key, value)]
  | (key0, value0) :: rest, key, value =>
    if key0 = key then (key, value) :: rest else (key0, value0) :: insertEntry rest key value

/-- The members of an object from the first key on, up to and including the closing brace: the
mapping and the bytes after the brace, or `none` when the text is not valid. `fuel` bounds the
number of members; `jsonUnmarshal` passes the length of the text, which no text exceeds. -/
def jsonObjectMembers : Nat → Bytes → StringMap → Option (StringMap × Bytes)
  | 0, _, _ => none
  | fuel + 1, bytes, acc =>
    match jsonString bytes with
    | none => none
    | some (key, rest) =>
      match skipSpace rest with
      | [] => none
      | colon :: rest1 =>
        if colon.toNat = 0x3A then
          match jsonMemberValue (skipSpace rest1) with
          | none => none
          | some (value, rest2) =>
            match skipSpace rest2 with
            | [] => none
            | sep :: rest3 =>
              if sep.toNat = 0x2C then
                jsonObjectMembers fuel (skipSpace rest3) (insertEntry acc key value)
              else if sep.toNat = 0x7D then some (insertEntry acc key value, rest3)
              else none
        else none

/-- The error of a `json.Unmarshal` that fails. The library reports a `*json.SyntaxError` or a
`*json.UnmarshalTypeError` whose message names the offending byte and its offset; only the
fact that an error is returned is kept here. -/
def jsonError : GoError := .errorString "json: cannot unmarshal into Go value of type map[string]string"

/-- The end of `json.Unmarshal`: only white space may follow the value. -/
def jsonFinish (value : GoMap) (rest : Bytes) : Except GoError GoMap :=
  match skipSpace rest with
  | [] => .ok value
  | _ :: _ => .error jsonError

/-- The function `json.Unmarshal` with a nil `map[string]string` variable as target: an object
of strings gives the mapping of its members, a later member replacing an earlier one with the
same key; `null` leaves the variable nil; everything else is an error. -/
def jsonUnmarshal (data : Bytes) : Except GoError GoMap :=
  match skipSpace data with
  | [] => .error jsonError
  | b :: rest =>
    if b.toNat = 0x7B then
      match skipSpace rest with
      | [] => .error jsonError
      | first :: rest1 =>
        if first.toNat = 0x7D then jsonFinish (some []) rest1
        else
          match jsonObjectMembers data.length (first :: rest1) [] with
          | none => .error jsonError
          | some (m, rest2) => jsonFinish (some m) rest2
    else
      match b :: rest with
      | b1 :: b2 :: b3 :: b4 :: rest1 =>
        if b1.toNat = 0x6E ∧ b2.toNat = 0x75 ∧ b3.toNat = 0x6C ∧ b4.toNat = 0x6C then
          jsonFinish none rest1
        else .error jsonError
      | _ => .error jsonError

/-! ## `release/container/container.go` -/

/-- The order `sort.Strings` sorts by, Go's `<=` on strings: lexicographic on the bytes, which
for UTF-8 text is lexicographic on the code points. -/
def goStringLE (a b : String) : Prop := a.data ≤ b.data

instance : DecidableRel goStringLE :=
  fun a b => inferInstanceAs (Decidable (a.data ≤ b.data))

/-- The function `mapToDockerEnv`: the keys in ascending order (`sort.Strings`), each rendered
with its value as `key=value`. -/
def mapToDockerEnv (input : StringMap) : List String :=
  let keys := input.map Prod.fst
  let sorted := keys.insertionSort goStringLE
  sorted.map fun key => key ++ "=" ++ (input.lookup key).getD ""

/-- The function `getReleaseMetadataFromContainer`: copy `/release-metadata.json` out of the
container, move to the first entry of the tar stream, copy the entry (the result of `io.Copy`
is not looked at, so `content` stands for what was copied) and decode it with `json.Unmarshal`
into a `map[string]string` variable that starts nil. -/
def getReleaseMetadataFromContainer (eng : Engine) (id : String) :
    List Call × Except GoError GoMap :=
  let copied := [Call.copyFromContainer id "/release-metadata.json"]
  match eng.CopyFromContainer id "/release-metadata.json" with
  | .error err => (copied, .error err)
  | .ok reader =>
    match reader.Next with
    | .error err => (copied, .error err)
    | .ok entry =>
      let untarred := entry.2
      match jsonUnmarshal untarred with
      | .error err => (copied, .error err)
      | .ok result => (copied, .ok result)

/-- The `BeforeRemove` closure of `container.Run`; the captured variable is `releaseMetadata`. -/
def releaseBeforeRemove (eng : Engine) (id : String) (releaseMetadata : GoMap) :
    HookResult GoMap :=
  let got := getReleaseMetadataFromContainer eng id
  match got.2 with
  | .error err =>
    ⟨got.1, some (.wrapError ("could not get release metadata from container: " ++ err.Error) err),
      releaseMetadata⟩
  | .ok result => ⟨got.1, none, result⟩

/-- The options `container.Run` passes to the docker client. -/
def releaseRunOptions (eng : Engine) (image codeDir buildVolume : String) (env : StringMap) :
    RunOptions GoMap where
  Image := image
  WorkingDir := "/code"
  Entrypoint := []
  Cmd := []
  Env := mapToDockerEnv env
  Binds := [codeDir ++ ":/code:ro", buildVolume ++ ":/build",
    "/var/run/docker.sock:/var/run/docker.sock"]
  NamePrefix := "cdflow2-release"
  Init := false
  InputStream := false
  Started := false
  SuccessStatus := 0
  BeforeRemove := some (releaseBeforeRemove eng)

/-- The function `Run` of `release/container/container.go`, with the docker client of
`docker/official`. The statement `return releaseMetadata, dockerClient.Run(...)` yields the
value `releaseMetadata` has after the call, which is what `TestRelese` relies on. -/
def container.Run (eng : Engine) (image codeDir buildVolume : String) (env : StringMap) :
    RunResult GoMap :=
  let releaseMetadata : GoMap := none
  Client.Run eng (releaseRunOptions eng image codeDir buildVolume env) releaseMetadata

/-! ## `destroy/command.go` -/

/-- The struct `CommandArgs`; `StateShouldExist` is a pointer, `none` when nil. -/
structure CommandArgs where
  EnvName : String
  Version : String
  PlanOnly : Bool
  StateShouldExist : Option Bool
  deriving DecidableEq, Repr

/-- The loop of `ParseArgs`: `none` when the loop returns `nil, false`. -/
def parseArgsLoop : List String → CommandArgs → Option CommandArgs
  | [], result => some result
  | arg :: rest, result =>
    if arg = "-p" ∨ arg = "--plan-only" then
      parseArgsLoop rest { result with PlanOnly := true }
    else if result.EnvName = "" then
      parseArgsLoop rest { result with EnvName := arg }
    else if result.Version = "" then
      parseArgsLoop rest { result with Version := arg }
    else
      none

/-- The function `ParseArgs`: `none` stands for the result `nil, false`. -/
def ParseArgs (args : List String) : Option CommandArgs :=
  match parseArgsLoop args
    { EnvName := "", Version := "", PlanOnly := false, StateShouldExist := some true } with
  | none => none
  | some result =>
    if result.EnvName = "" then none
    else if result.Version = "" then none
    else some result

/-- The error of a failed `os.Stat`, by its errno. -/
inductive Errno where
  | ENOENT
  | ENOTDIR
  | EACCES
  deriving DecidableEq, Repr

/-- What a path names on the invoking host: a file that is there; nothing (`ENOENT`); nothing,
because a component of the path prefix is not a directory (`ENOTDIR`); or something that cannot
be looked at, because search permission is denied on a directory of the prefix (`EACCES`), in
which case the file may be there or not. -/
inductive HostPath where
  | present
  | absent
  | parentNotDir
  | denied (there : Bool)
  deriving DecidableEq, Repr

/-- Whether the file exists on the host. -/
def HostPath.Exists : HostPath → Bool
  | .present => true
  | .absent => false
  | .parentNotDir => false
  | .denied there => there

/-- The error result of `os.Stat`. -/
def osStat : HostPath → Option Errno
  | .present => none
  | .absent => some .ENOENT
  | .parentNotDir => some .ENOTDIR
  | .denied _ => some .EACCES

/-- The function `os.IsNotExist`: true for `ENOENT` only, false for nil and the other errors. -/
def osIsNotExist : Option Errno → Bool
  | some .ENOENT => true
  | _ => false

/-- The part of `config.PrepareTerraformResponse` that `RunCommand` reads. -/
structure PrepareTerraformResponse where
  Env : StringMap
  deriving DecidableEq, Repr

/-- The three values `config.SetupTerraform` returns beside its error. -/
structure SetupResult where
  prepareTerraformResponse : PrepareTerraformResponse
  buildVolume : String
  terraformImage : String
  deriving DecidableEq, Repr

/-- The answers of the collaborators of `destroy.RunCommand`: `config.SetupTerraform`, the
docker client, the terraform container and the file system of the invoking host. -/
structure Pipeline where
  SetupTerraform : Except GoError SetupResult
  NewContainer : Option GoError
  Done : Option GoError
  RemoveVolume : String → Option GoError
  CopyTerraformLockIfExists : Option GoError
  ConfigureBackend : Option GoError
  SwitchWorkspace : String → Option GoError
  RunCommand : List String → Option GoError
  host : String → HostPath

/-- The steps `destroy.RunCommand` takes, in the order it takes them. `announce` is the
`fmt.Fprintf` to the error stream, with the text given to `util.FormatInfo` and the command
line given to `util.FormatCommand`. -/
inductive Step where
  | setupTerraform (stateShouldExist : Option Bool) (envName version : String)
  | removeVolume (id : String)
  | newContainer (image codeDir buildVolume : String)
  | done
  | copyTerraformLockIfExists
  | configureBackend (useWorkspace : Bool)
  | switchWorkspace (name : String)
  | stat (path : String)
  | announce (info commandLine : String)
  | runCommand (cmd : List String) (env : StringMap)
  deriving DecidableEq, Repr

/-- The error built by `fmt.Errorf("%w, also %v", returnedError, err)`. -/
def alsoError (returnedError err : GoError) : GoError :=
  .wrapError (returnedError.Error ++ ", also " ++ err.Error) returnedError

/-- The body shared by the two deferred functions: a cleanup error is joined to the error
being returned, or returned itself when none is being returned. -/
def joinCleanup (returnedError cleanup : Option GoError) : Option GoError :=
  match cleanup with
  | some err =>
    match returnedError with
    | some returned => some (alsoError returned err)
    | none => some err
  | none => returnedError

/-- The plan command and the destroy command as `RunCommand` assembles them. -/
def assembleCommands (host : String → HostPath) (args : CommandArgs) :
    List String × List String :=
  let planCommand := ["terraform", "plan", "-destroy"]
  let destroyCommand := ["terraform", "destroy", "-auto-approve"]
  let c1 : List String × List String :=
    if args.Version ≠ "" then
      (planCommand ++ ["-var-file=/build/release-metadata.json"],
        destroyCommand ++ ["-var-file=/build/release-metadata.json"])
    else (planCommand, destroyCommand)
  let commonConfigFile := "config/common.json"
  let c2 : List String × List String :=
    if ¬ osIsNotExist (osStat (host commonConfigFile)) then
      (c1.1 ++ ["-var-file=../" ++ commonConfigFile], c1.2 ++ ["-var-file=../" ++ commonConfigFile])
    else c1
  let envConfigFilename := "config/" ++ args.EnvName ++ ".json"
  let c3 : List String × List String :=
    if ¬ osIsNotExist (osStat (host envConfigFilename)) then
      (c2.1 ++ ["-var-file=../" ++ envConfigFilename],
        c2.2 ++ ["-var-file=../" ++ envConfigFilename])
    else c2
  c3

/-- The plan command of `RunCommand`. -/
def planCommand (host : String → HostPath) (args : CommandArgs) : List String :=
  (assembleCommands host args).1

/-- The destroy command of `RunCommand`. -/
def destroyCommand (host : String → HostPath) (args : CommandArgs) : List String :=
  (assembleCommands host args).2

/-- The statements of `RunCommand` after the second `defer`: lock copy, backend, workspace,
command assembly, plan, and destroy unless `PlanOnly`. The result is the steps taken and the
value of the `return` statement reached. -/
def runTerraform (w : Pipeline) (args : CommandArgs) (setup : SetupResult) :
    List Step × Option GoError :=
  match w.CopyTerraformLockIfExists with
  | some err => ([Step.copyTerraformLockIfExists], some err)
  | none =>
    match w.ConfigureBackend with
    | some err => ([Step.copyTerraformLockIfExists, Step.configureBackend true], some err)
    | none =>
      let prepared := [Step.copyTerraformLockIfExists, Step.configureBackend true,
        Step.switchWorkspace args.EnvName]
      match w.SwitchWorkspace args.EnvName with
      | some err => (prepared, some err)
      | none =>
        let plan := planCommand w.host args
        let destroy := destroyCommand w.host args
        let planned := prepared ++
          [Step.stat "config/common.json", Step.stat ("config/" ++ args.EnvName ++ ".json"),
            Step.announce "generating plan" (" ".intercalate plan),
            Step.runCommand plan setup.prepareTerraformResponse.Env]
        match w.RunCommand plan with
        | some err => (planned, some err)
        | none =>
          if args.PlanOnly then (planned, none)
          else
            let destroyed := planned ++
              [Step.announce "applying plan" (" ".intercalate destroy),
                Step.runCommand destroy setup.prepareTerraformResponse.Env]
            match w.RunCommand destroy with
            | some err => (destroyed, some err)
            | none => (destroyed, none)

/-- The statements of `RunCommand` after the first `defer`: create the terraform container,
and when that succeeded run the rest with `terraformContainer.Done` deferred. The result is
the steps taken, `Done` included, and the value of `returnedError` after the deferred `Done`. -/
def runWithVolume (w : Pipeline) (codeDir : String) (args : CommandArgs) (setup : SetupResult) :
    List Step × Option GoError :=
  let created := [Step.newContainer setup.terraformImage codeDir setup.buildVolume]
  match w.NewContainer with
  | some err => (created, some err)
  | none =>
    let ran := runTerraform w args setup
    (created ++ ran.1 ++ [Step.done], joinCleanup ran.2 w.Done)

/-- The function `RunCommand` of `destroy/command.go`: the steps taken and the error
returned, that is `returnedError` after the deferred functions ran, last registered first. -/
def RunCommand (w : Pipeline) (codeDir : String) (args : CommandArgs) :
    List Step × Option GoError :=
  let started := [Step.setupTerraform args.StateShouldExist args.EnvName args.Version]
  match w.SetupTerraform with
  | .error err => (started, some err)
  | .ok setup =>
    let ran := runWithVolume w codeDir args setup
    (started ++ ran.1 ++ [Step.removeVolume setup.buildVolume],
      joinCleanup ran.2 (w.RemoveVolume setup.buildVolume))

/-- The value of the `return` statement `RunCommand` reaches, before any deferred function
changes `returnedError`. -/
def primaryError (w : Pipeline) (args : CommandArgs) : Option GoError :=
  match w.SetupTerraform with
  | .error err => some err
  | .ok setup =>
    match w.NewContainer with
    | some err => some err
    | none => (runTerraform w args setup).2

/-- The commands run through `terraformContainer.RunCommand`, in order. -/
def commandsRun : List Step → List (List String)
  | [] => []
  | .runCommand cmd _ :: rest => cmd :: commandsRun rest
  | _ :: rest => commandsRun rest

/-- The number of `RemoveVolume` calls among the steps. -/
def removeVolumeCount (steps : List Step) : Nat :=
  (steps.filter fun step => match step with
    | .removeVolume _ => true
    | _ => false).length

/-- Whether no command is run before the workspace `name` has been switched to. -/
def switchedBeforeCommands (name : String) : List Step → Bool
  | [] => true
  | .switchWorkspace other :: rest =>
    if other = name then true else switchedBeforeCommands name rest
  | .runCommand _ _ :: _ => false
  | _ :: rest => switchedBeforeCommands name rest

/-! ## The plan command in the words of the specification -/

/-- The plan command as the specification words it: the var-file flag of a configuration file
is there exactly when the file exists on the host. -/
def specPlanCommand (host : String → HostPath) (args : CommandArgs) : List String :=
  ["terraform", "plan", "-destroy"] ++
    (if args.Version ≠ "" then ["-var-file=/build/release-metadata.json"] else []) ++
    (if (host "config/common.json").Exists then ["-var-file=../config/common.json"] else []) ++
    (if (host ("config/" ++ args.EnvName ++ ".json")).Exists then
      ["-var-file=../config/" ++ args.EnvName ++ ".json"] else [])

/-! ## Concrete engines, options and pipelines -/

/-- Options without input stream and without callback, with success status 0. -/
def plainOptions : RunOptions Unit where
  Image := "alpine"
  WorkingDir := "/code"
  Entrypoint := []
  Cmd := []
  Env := []
  Binds := []
  NamePrefix := "cdflow2-release"
  Init := false
  InputStream := false
  Started := false
  SuccessStatus := 0
  BeforeRemove := none

/-- The options `plainOptions` with a callback that fails. -/
def failingHookOptions : RunOptions Unit :=
  { plainOptions with
    BeforeRemove := some fun _ s => ⟨[], some (.errorString "copy failed"), s⟩ }

/-- An engine on which every call succeeds and the container `c1` exits with `exitCode`. -/
def exitEngine (exitCode : Int) : Engine where
  ContainerCreate := .ok "c1"
  ContainerAttach := none
  ContainerStart := none
  streamEnd := .outputDone none
  ContainerInspect := .ok ⟨"c1", false, exitCode⟩
  ContainerRemove := none
  CopyFromContainer := fun _ _ => .ok .eof

/-- An engine on which every exec call succeeds and the process exits with `exitCode`. -/
def execExitEngine (exitCode : Int) : ExecEngine where
  ContainerExecCreate := .ok "e1"
  ContainerExecAttach := none
  ContainerExecStart := none
  streamEnd := .outputDone none
  ContainerExecInspect := .ok exitCode

/-- A release metadata mapping with a non-ASCII value. -/
def sampleMetadata : StringMap := [("k", "é")]

/-- The UTF-8 bytes of the JSON object with the one key `k`, whose value is the letter e with an
acute accent: the JSON encoding of `sampleMetadata`. -/
def sampleJSON : Bytes := [123, 34, 107, 34, 58, 34, 195, 169, 34, 125]

/-- A release metadata mapping whose keys and values need every kind of escape and every width
of UTF-8. -/
def escapedMetadata : StringMap :=
  [("version", "1.0 \"rc\" <é>"), ("path\\ü", "tab\tline\n&"), ("日本", "😀\x01"), ("", "")]

/-- An engine whose release container `r1` exits with status 0 and holds `sampleJSON` at
`/release-metadata.json`; `remove` is the answer to the remove call. -/
def releaseEngine (remove : Option GoError) : Engine where
  ContainerCreate := .ok "r1"
  ContainerAttach := none
  ContainerStart := none
  streamEnd := .outputDone none
  ContainerInspect := .ok ⟨"r1", false, 0⟩
  ContainerRemove := remove
  CopyFromContainer := fun _ path =>
    if path = "/release-metadata.json" then .ok (.entry "release-metadata.json" sampleJSON .eof)
    else .error (.errorString "no such file")

/-- A host on which `config` is a regular file, so that no file exists below it and `os.Stat`
of a path below it fails with `ENOTDIR`. -/
def configIsFileHost : String → HostPath := fun _ => .parentNotDir

/-- The arguments `live 1`. -/
def liveArgs : CommandArgs := ⟨"live", "1", false, some true⟩

/-- The arguments `--plan-only live 1`. -/
def livePlanOnlyArgs : CommandArgs := ⟨"live", "1", true, some true⟩

/-- The values of a successful setup. -/
def sampleSetup : SetupResult := ⟨⟨[("TF_VAR_x", "1")]⟩, "vol1", "hashicorp/terraform"⟩

/-- A pipeline in which every collaborator succeeds and no configuration file exists. -/
def healthyPipeline : Pipeline where
  SetupTerraform := .ok sampleSetup
  NewContainer := none
  Done := none
  RemoveVolume := fun _ => none
  CopyTerraformLockIfExists := none
  ConfigureBackend := none
  SwitchWorkspace := fun _ => none
  RunCommand := fun _ => none
  host := fun _ => .absent

/-- A pipeline whose setup fails. -/
def setupFailsPipeline : Pipeline :=
  { healthyPipeline with SetupTerraform := .error (.errorString "config container failed") }

/-- A pipeline whose plan fails and whose two cleanup steps fail. -/
def allFailPipeline : Pipeline :=
  { healthyPipeline with
    RunCommand := fun _ => some (.errorString "plan failed")
    Done := some (.errorString "stop failed")
    RemoveVolume := fun _ => some (.errorString "volume in use") }

/-- A pipeline whose workspace switch fails. -/
def switchFailsPipeline : Pipeline :=
  { healthyPipeline with SwitchWorkspace := fun _ => some (.errorString "no such workspace") }

/-! ## The order of the calls of `Client.Run` in the words of the specification -/

/-- The id the engine answered the create call with; the empty text when the call failed. -/
def createdID (eng : Engine) : String :=
  match eng.ContainerCreate with
  | .ok id => id
  | .error _ => ""

/-- The invocation of the `BeforeRemove` callback followed by the calls the callback makes;
nothing when there is no callback. -/
def hookCalls {σ : Type} (options : RunOptions σ) (id : String) (s : σ) : List Call :=
  match options.BeforeRemove with
  | some hook => [Call.beforeRemove id] ++ (hook id s).calls
  | none => []

/-- The calls of a complete run in the order the specification gives: create, attach, the
input copier when there is an input stream, the output copier, start, the send on `started`
when that channel is there, inspect, the optional callback, remove. -/
def specRunOrder {σ : Type} (options : RunOptions σ) (id : String) (hook : List Call) :
    List Call :=
  [Call.containerCreate options.Image options.InputStream,
    Call.containerAttach id options.InputStream] ++
    (if options.InputStream then [Call.copyInput] else []) ++
    [Call.copyOutput, Call.containerStart id] ++
    (if options.Started then [Call.startedSend id] else []) ++
    [Call.containerInspect id] ++ hook ++ [Call.containerRemove id]

/-- Whether, reading the calls in order, a call of the kind `isFirst` is met before any call of
the kind `isLater`. -/
def precededBy (isFirst isLater : Call → Bool) : List Call → Bool
  | [] => true
  | call :: rest =>
    if isFirst call then true
    else if isLater call then false
    else precededBy isFirst isLater rest

/-- Whether a call is a `ContainerStart`. -/
def Call.isStart : Call → Bool
  | .containerStart _ => true
  | _ => false

/-- Whether a call is a `ContainerAttach`. -/
def Call.isAttach : Call → Bool
  | .containerAttach _ _ => true
  | _ => false

/-- Whether a call is a `ContainerInspect`. -/
def Call.isInspect : Call → Bool
  | .containerInspect _ => true
  | _ => false

/-- An engine whose attach call fails. -/
def attachFailsEngine : Engine :=
  { exitEngine 0 with ContainerAttach := some (.errorString "cannot hijack") }

/-- An engine whose start call fails. -/
def startFailsEngine : Engine :=
  { exitEngine 0 with ContainerStart := some (.errorString "no such image") }

/-! ## `ParseArgs` in the words of the specification -/

/-- Whether an argument is one of the two spellings of the plan-only flag. -/
def isPlanOnlyFlag (arg : String) : Bool := arg = "-p" || arg = "--plan-only"

/-- The positional arguments: those that are not the plan-only flag. -/
def positionalArgs (args : List String) : List String :=
  args.filter fun arg => !isPlanOnlyFlag arg

/-- The result of `ParseArgs` as the specification words it: success exactly with two
positional arguments, which are the environment name and the version; `PlanOnly` when some
argument is the flag; `StateShouldExist` pointing to true. -/
def specParseArgs (args : List String) : Option CommandArgs :=
  match positionalArgs args with
  | [envName, version] => some ⟨envName, version, args.any isPlanOnlyFlag, some true⟩
  | _ => none

/-- Go's `<` on strings, the strict order of `sort.Strings`. -/
def goStringLT (a b : String) : Prop := a.data < b.data

instance : DecidableRel goStringLT :=
  fun a b => inferInstanceAs (Decidable (a.data < b.data))

/-- The rendering of one entry of the environment as `key=value`. -/
def dockerEnvEntry (entry : String × String) : String := entry.1 ++ "=" ++ entry.2

/-! # Properties -/

/-! ## Texts and errors -/

theorem mentions_refl (a : String) : Mentions a a := List.infix_refl _

theorem mentions_trans {a b c : String} (hab : Mentions a b) (hbc : Mentions b c) :
    Mentions a c := List.IsInfix.trans hbc hab

theorem mentions_append_right (a b : String) : Mentions (a ++ b) b := by
  unfold Mentions
  rw [String.data_append]
  exact (List.suffix_append _ _).isInfix

theorem mentions_append_left (a b : String) : Mentions (a ++ b) a := by
  unfold Mentions
  rw [String.data_append]
  exact (List.prefix_append _ _).isInfix

theorem wraps_self (err : GoError) : err.Wraps err := by
  cases err <;> simp [GoError.Wraps]

theorem alsoError_mentions_returned (returned err : GoError) :
    Mentions (alsoError returned err).Error returned.Error := by
  simp only [alsoError, GoError.Error, String.append_assoc]
  exact mentions_append_left _ _

theorem alsoError_mentions_cleanup (returned err : GoError) :
    Mentions (alsoError returned err).Error err.Error := by
  simp only [alsoError, GoError.Error]
  exact mentions_append_right _ _

theorem alsoError_wraps (returned err target : GoError) (h : returned.Wraps target) :
    (alsoError returned err).Wraps target := by
  simp only [alsoError, GoError.Wraps]
  exact Or.inr h

theorem joinCleanup_wraps (r target : GoError) (cleanup : Option GoError)
    (h : r.Wraps target) :
    ∃ r2, joinCleanup (some r) cleanup = some r2 ∧ r2.Wraps target := by
  cases cleanup with
  | none => exact ⟨r, rfl, h⟩
  | some err => exact ⟨_, rfl, alsoError_wraps _ _ _ h⟩

/-! ## `Client.Run` -/

/-- C1: a container that was created is not removed on every exit path of `Client.Run`. With an
engine on which every call succeeds and a container that exits with status 1 while the success
status is 0, one container is created, `Run` returns the exit code error, and the calls made
are create, attach, output copier, start and inspect: there is no remove call. -/
theorem run_unsuccessful_exit_leaves_container :
    createdCount (exitEngine 1) = 1 ∧
    (Client.Run (exitEngine 1) plainOptions ()).outcome =
      .returned (some (.errorString "container c1 exited with unsuccessful exit code 1")) ∧
    (Client.Run (exitEngine 1) plainOptions ()).calls =
      [.containerCreate "alpine" false, .containerAttach "c1" false, .copyOutput,
        .containerStart "c1", .containerInspect "c1"] ∧
    removeCount (Client.Run (exitEngine 1) plainOptions ()).calls = 0 := by
  decide

/-- C2: in a run of `Client.Run` in which create, attach, start, streaming and inspect succeed
and the container has exited: when the exit code differs from `SuccessStatus`, `Run` returns
an error whose message contains the exit code in decimal and the `BeforeRemove` callback is not
invoked; when the exit code equals `SuccessStatus`, `Run` does not return that error: it
returns the wrapped error of the callback when the callback fails, and otherwise what the
remove call returns. -/
theorem run_exit_code_checked {σ : Type} (eng : Engine) (options : RunOptions σ) (s : σ)
    (id : String) (result : ContainerJSON)
    (hcreate : eng.ContainerCreate = .ok id)
    (hattach : eng.ContainerAttach = none)
    (hstart : eng.ContainerStart = none)
    (hstream : eng.streamEnd = .outputDone none)
    (hinspect : eng.ContainerInspect = .ok result)
    (hexited : result.Running = false) :
    (result.ExitCode ≠ options.SuccessStatus →
      ∃ err, (Client.Run eng options s).outcome = .returned (some err) ∧
        Mentions err.Error (fmtDecimal result.ExitCode) ∧
        hookCount (Client.Run eng options s).calls = 0) ∧
    (result.ExitCode = options.SuccessStatus →
      (Client.Run eng options s).outcome = .returned
        (match options.BeforeRemove with
          | none => eng.ContainerRemove
          | some hook =>
            match (hook id s).err with
            | some err => some (beforeRemoveError err)
            | none => eng.ContainerRemove)) := by
  constructor
  · intro hne
    refine ⟨.errorString (exitCodeMessage result.ID result.ExitCode), ?_, ?_, ?_⟩
    · simp [Client.Run, Client.await, Client.streamHijackedResponse, hcreate, hattach, hstart,
        hstream, hinspect, hexited, hne]
    · exact mentions_append_right _ _
    · simp [Client.Run, Client.await, Client.streamHijackedResponse, hcreate, hattach, hstart,
        hstream, hinspect, hexited, hne, hookCount]
  · intro heq
    simp only [Client.Run, Client.await, Client.streamHijackedResponse, hcreate, hattach, hstart,
        hstream, hinspect, hexited, heq]
    cases hhook : options.BeforeRemove with
    | none => simp
    | some hook =>
      cases herr : (hook id s).err <;> simp [herr]

/-- C2 at a concrete run: exit code 1 against success status 0 gives an error that mentions
`1` and no callback invocation; exit code 0 gives a nil error. -/
theorem run_exit_code_checked_witness :
    (∃ err, (Client.Run (exitEngine 1) failingHookOptions ()).outcome = .returned (some err) ∧
      Mentions err.Error "1" ∧
      hookCount (Client.Run (exitEngine 1) failingHookOptions ()).calls = 0) ∧
    (Client.Run (exitEngine 0) plainOptions ()).outcome = .returned none :=
  ⟨(run_exit_code_checked (exitEngine 1) failingHookOptions () "c1" ⟨"c1", false, 1⟩
      rfl rfl rfl rfl rfl rfl).1 (by decide),
    (run_exit_code_checked (exitEngine 0) plainOptions () "c1" ⟨"c1", false, 0⟩
      rfl rfl rfl rfl rfl rfl).2 rfl⟩

/-- C3: when the container exits with the success status and the `BeforeRemove` callback
returns an error, `Client.Run` reports an error that wraps it but does not remove the
container: the calls made end with the callback, and there is no remove call. -/
theorem run_hook_failure_leaves_container :
    createdCount (exitEngine 0) = 1 ∧
    (Client.Run (exitEngine 0) failingHookOptions ()).outcome =
      .returned (some (.wrapError "error in BeforeRemove function for container: copy failed"
        (.errorString "copy failed"))) ∧
    (GoError.wrapError "error in BeforeRemove function for container: copy failed"
      (.errorString "copy failed")).Wraps (.errorString "copy failed") ∧
    (Client.Run (exitEngine 0) failingHookOptions ()).calls =
      [.containerCreate "alpine" false, .containerAttach "c1" false, .copyOutput,
        .containerStart "c1", .containerInspect "c1", .beforeRemove "c1"] ∧
    removeCount (Client.Run (exitEngine 0) failingHookOptions ()).calls = 0 :=
  ⟨by decide, by decide, Or.inr rfl, by decide, by decide⟩

/-! ## JSON of a `map[string]string` -/

theorem toNat_ofNat_byte (n : Nat) (h : n < 256) : (UInt8.ofNat n).toNat = n := by
  show n % 256 = n
  omega

theorem utf8DecodeRune_utf8Bytes (c : Char) (tail : Bytes) :
    utf8DecodeRune (utf8Bytes c ++ tail) = (c, (utf8Bytes c).length) := by
  have hvalid : c.toNat < 0xD800 ∨ (0xDFFF < c.toNat ∧ c.toNat < 0x110000) := c.valid
  unfold utf8Bytes
  generalize hn : c.toNat = n at hvalid ⊢
  have hc : Char.ofNat n = c := hn ▸ Char.ofNat_toNat c
  by_cases h1 : n < 0x80
  · simp [h1, utf8DecodeRune, toNat_ofNat_byte n (by omega), hc]
  · by_cases h2 : n < 0x800
    · have e0 := toNat_ofNat_byte (0xC0 + n / 0x40) (by omega)
      have e1 := toNat_ofNat_byte (0x80 + n % 0x40) (by omega)
      have hv : (0xC0 + n / 0x40 - 0xC0) * 0x40 + (0x80 + n % 0x40 - 0x80) = n := by omega
      simp only [h1, h2, if_false, if_true, List.cons_append, utf8DecodeRune, e0, e1,
        isContinuation, hv, hc]
      rw [if_neg (by omega), if_pos (by omega), if_pos (by simp; omega)]
      rfl
    · by_cases h3 : n < 0x10000
      · have e0 := toNat_ofNat_byte (0xE0 + n / 0x1000) (by omega)
        have e1 := toNat_ofNat_byte (0x80 + n / 0x40 % 0x40) (by omega)
        have e2 := toNat_ofNat_byte (0x80 + n % 0x40) (by omega)
        have hv : (0xE0 + n / 0x1000 - 0xE0) * 0x1000 + (0x80 + n / 0x40 % 0x40 - 0x80) * 0x40 +
            (0x80 + n % 0x40 - 0x80) = n := by omega
        simp only [h1, h2, h3, if_false, if_true, List.cons_append, utf8DecodeRune, e0, e1, e2,
          isContinuation, hv, hc]
        rw [if_neg (by omega), if_neg (by omega), if_pos (by omega), if_pos (by simp; omega)]
        rfl
      · have e0 := toNat_ofNat_byte (0xF0 + n / 0x40000) (by omega)
        have e1 := toNat_ofNat_byte (0x80 + n / 0x1000 % 0x40) (by omega)
        have e2 := toNat_ofNat_byte (0x80 + n / 0x40 % 0x40) (by omega)
        have e3 := toNat_ofNat_byte (0x80 + n % 0x40) (by omega)
        have hv : (0xF0 + n / 0x40000 - 0xF0) * 0x40000 +
            (0x80 + n / 0x1000 % 0x40 - 0x80) * 0x1000 +
            (0x80 + n / 0x40 % 0x40 - 0x80) * 0x40 + (0x80 + n % 0x40 - 0x80) = n := by omega
        simp only [h1, h2, h3, if_false, if_true, List.cons_append, utf8DecodeRune, e0, e1, e2,
          e3, isContinuation, hv, hc]
        rw [if_neg (by omega), if_neg (by omega), if_neg (by omega), if_pos (by omega),
          if_pos (by simp; omega)]
        rfl

theorem hexValue_hexDigit (k : Nat) (h : k < 16) : hexValue (hexDigit k) = some k := by
  unfold hexDigit hexValue
  by_cases h10 : k < 10
  · have e := toNat_ofNat_byte (0x30 + k) (by omega)
    simp only [h10, if_true, e]
    rw [if_pos (by omega)]
    congr 1
    omega
  · have e := toNat_ofNat_byte (0x57 + k) (by omega)
    simp only [h10, if_false, e]
    rw [if_neg (by omega), if_pos (by omega)]
    congr 1
    omega

theorem utf8Bytes_head (c : Char) :
    ∃ b l, utf8Bytes c = b :: l ∧ ((c.toNat < 0x80 ∧ b.toNat = c.toNat) ∨ 0x80 ≤ b.toNat) := by
  have hvalid : c.toNat < 0xD800 ∨ (0xDFFF < c.toNat ∧ c.toNat < 0x110000) := c.valid
  unfold utf8Bytes
  generalize c.toNat = n at hvalid ⊢
  by_cases h1 : n < 0x80
  · exact ⟨UInt8.ofNat n, [], by simp only [h1, if_true],
      Or.inl ⟨h1, toNat_ofNat_byte n (by omega)⟩⟩
  · by_cases h2 : n < 0x800
    · refine ⟨UInt8.ofNat (0xC0 + n / 0x40), _, by simp only [h1, h2, if_true, if_false]; rfl,
        Or.inr ?_⟩
      rw [toNat_ofNat_byte _ (by omega)]
      omega
    · by_cases h3 : n < 0x10000
      · refine ⟨UInt8.ofNat (0xE0 + n / 0x1000), _,
          by simp only [h1, h2, h3, if_true, if_false]; rfl, Or.inr ?_⟩
        rw [toNat_ofNat_byte _ (by omega)]
        omega
      · refine ⟨UInt8.ofNat (0xF0 + n / 0x40000), _, by simp only [h1, h2, h3, if_false]; rfl,
          Or.inr ?_⟩
        rw [toNat_ofNat_byte _ (by omega)]
        omega

theorem jsonStringStep_unicode (h1 h2 h3 h4 : UInt8) (tail : Bytes) (v : Nat)
    (hv : hexValue4 h1 h2 h3 h4 = some v) (hs : ¬ (0xD800 ≤ v ∧ v ≤ 0xDFFF)) :
    jsonStringStep (0x5C :: 0x75 :: h1 :: h2 :: h3 :: h4 :: tail) = .char (Char.ofNat v) 6 := by
  have e1 : (0x5C : UInt8).toNat = 0x5C := rfl
  have e2 : (0x75 : UInt8).toNat = 0x75 := rfl
  simp only [jsonStringStep, e1, e2, hv, hs]
  simp

theorem hexValue4_low (a b : Nat) (ha : a < 16) (hb : b < 16) :
    hexValue4 0x30 0x30 (hexDigit a) (hexDigit b) = some (a * 16 + b) := by
  have e0 : hexValue 0x30 = some 0 := rfl
  simp [hexValue4, e0, hexValue_hexDigit a ha, hexValue_hexDigit b hb]

theorem hexValue4_separator (b : Nat) (hb : b < 16) :
    hexValue4 0x32 0x30 0x32 (hexDigit b) = some (0x2020 + b) := by
  have e0 : hexValue 0x30 = some 0 := rfl
  have e2 : hexValue 0x32 = some 2 := rfl
  simp [hexValue4, e0, e2, hexValue_hexDigit b hb]

theorem jsonStringStep_escape (c : Char) (tail : Bytes) :
    jsonStringStep (jsonEscapeChar c ++ tail) = .char c (jsonEscapeChar c).length := by
  have hc := Char.ofNat_toNat c
  by_cases h1 : c.toNat = 0x22
  · obtain rfl : c = Char.ofNat 0x22 := by rw [← hc, h1]
    rfl
  · by_cases h2 : c.toNat = 0x5C
    · obtain rfl : c = Char.ofNat 0x5C := by rw [← hc, h2]
      rfl
    · by_cases h3 : c.toNat = 0x0A
      · obtain rfl : c = Char.ofNat 0x0A := by rw [← hc, h3]
        rfl
      · by_cases h4 : c.toNat = 0x0D
        · obtain rfl : c = Char.ofNat 0x0D := by rw [← hc, h4]
          rfl
        · by_cases h5 : c.toNat = 0x09
          · obtain rfl : c = Char.ofNat 0x09 := by rw [← hc, h5]
            rfl
          · by_cases h6 : c.toNat < 0x20 ∨ c.toNat = 0x3C ∨ c.toNat = 0x3E ∨ c.toNat = 0x26
            · have hesc : jsonEscapeChar c =
                  [0x5C, 0x75, 0x30, 0x30, hexDigit (c.toNat / 16), hexDigit (c.toNat % 16)] := by
                simp only [jsonEscapeChar, h1, h2, h3, h4, h5, h6, if_true, if_false]
              rw [hesc]
              have hv := hexValue4_low (c.toNat / 16) (c.toNat % 16) (by omega) (by omega)
              have hn : c.toNat / 16 * 16 + c.toNat % 16 = c.toNat := by omega
              rw [hn] at hv
              have hstep := jsonStringStep_unicode _ _ _ _ tail _ hv (by omega)
              rw [hc] at hstep
              exact hstep
            · by_cases h7 : c.toNat = 0x2028 ∨ c.toNat = 0x2029
              · have hesc : jsonEscapeChar c =
                    [0x5C, 0x75, 0x32, 0x30, 0x32, hexDigit (c.toNat % 16)] := by
                  simp only [jsonEscapeChar, h1, h2, h3, h4, h5, h6, h7, if_true, if_false]
                rw [hesc]
                have hv := hexValue4_separator (c.toNat % 16) (by omega)
                have hn : 0x2020 + c.toNat % 16 = c.toNat := by omega
                rw [hn] at hv
                have hstep := jsonStringStep_unicode _ _ _ _ tail _ hv (by omega)
                rw [hc] at hstep
                exact hstep
              · have hesc : jsonEscapeChar c = utf8Bytes c := by
                  simp only [jsonEscapeChar, h1, h2, h3, h4, h5, h6, h7, if_false]
                rw [hesc]
                obtain ⟨b, l, hbl, hb⟩ := utf8Bytes_head c
                have hdecode := utf8DecodeRune_utf8Bytes c tail
                rw [hbl] at hdecode ⊢
                have hq : b.toNat ≠ 0x22 := by omega
                have hs : b.toNat ≠ 0x5C := by omega
                have hctl : ¬ b.toNat < 0x20 := by omega
                simp only [List.cons_append] at hdecode ⊢
                simp only [jsonStringStep, hq, hs, hctl, if_false, hdecode]

theorem jsonEscapeChar_ne_nil (c : Char) : jsonEscapeChar c ≠ [] := by
  intro h
  have hstep := jsonStringStep_escape c []
  rw [h] at hstep
  simp [jsonStringStep] at hstep

theorem jsonStringBody_skip (l tail : Bytes) (acc : List Char) :
    jsonStringBody l.length (l ++ tail) acc = jsonStringBody 0 tail acc := by
  induction l with
  | nil => rfl
  | cons b rest ih => simpa [jsonStringBody] using ih

theorem jsonStringBody_escape (cs : List Char) (tail : Bytes) (acc : List Char) :
    jsonStringBody 0 (jsonEscape cs ++ 0x22 :: tail) acc =
      some (String.mk (acc.reverse ++ cs), tail) := by
  induction cs generalizing acc with
  | nil =>
    have e : (0x22 : UInt8).toNat = 0x22 := rfl
    simp [jsonEscape, jsonStringBody, jsonStringStep, e]
  | cons c rest ih =>
    have hstep := jsonStringStep_escape c (jsonEscape rest ++ 0x22 :: tail)
    cases hesc : jsonEscapeChar c with
    | nil => exact absurd hesc (jsonEscapeChar_ne_nil c)
    | cons b l =>
      rw [hesc] at hstep
      simp only [jsonEscape, hesc, List.cons_append, List.append_assoc] at hstep ⊢
      simp only [jsonStringBody, hstep, List.length_cons, Nat.add_sub_cancel]
      rw [jsonStringBody_skip, ih]
      simp

theorem jsonString_quote (s : String) (tail : Bytes) :
    jsonString (jsonQuote s ++ tail) = some (s, tail) := by
  have e : (0x22 : UInt8).toNat = 0x22 := rfl
  simp [jsonString, jsonQuote, e, jsonStringBody_escape]

theorem jsonMemberValue_quote (s : String) (tail : Bytes) :
    jsonMemberValue (jsonQuote s ++ tail) = some (s, tail) := by
  have e : (0x22 : UInt8).toNat = 0x22 := rfl
  simp [jsonMemberValue, jsonQuote, e, jsonStringBody_escape]

theorem skipSpace_quote (s : String) (tail : Bytes) :
    skipSpace (jsonQuote s ++ tail) = jsonQuote s ++ tail := by
  have e : isSpace 0x22 = false := rfl
  simp [jsonQuote, skipSpace, e]

theorem insertEntry_new (acc : StringMap) (key value : String)
    (hnew : key ∉ acc.map Prod.fst) : insertEntry acc key value = acc ++ [(key, value)] := by
  induction acc with
  | nil => rfl
  | cons head rest ih =>
    obtain ⟨key0, value0⟩ := head
    simp only [List.map_cons, List.mem_cons, not_or] at hnew
    have hne : key0 ≠ key := fun h => hnew.1 h.symm
    simp [insertEntry, hne, ih hnew.2]

theorem skipSpace_cons (b : UInt8) (rest : Bytes) (h : isSpace b = false) :
    skipSpace (b :: rest) = b :: rest := by
  simp [skipSpace, h]

theorem jsonObjectMembers_last (fuel : Nat) (key value : String) (tail : Bytes)
    (acc : StringMap) :
    jsonObjectMembers (fuel + 1) (jsonMember (key, value) ++ 0x7D :: tail) acc =
      some (insertEntry acc key value, tail) := by
  have hbytes : jsonMember (key, value) ++ 0x7D :: tail =
      jsonQuote key ++ (0x3A :: (jsonQuote value ++ 0x7D :: tail)) := by
    simp [jsonMember]
  have e3 : (0x3A : UInt8).toNat = 0x3A := rfl
  have e4 : (0x7D : UInt8).toNat = 0x7D := rfl
  rw [hbytes]
  unfold jsonObjectMembers
  rw [jsonString_quote]
  simp only [skipSpace_cons 0x3A _ rfl, e3, if_true, skipSpace_quote, jsonMemberValue_quote,
    skipSpace_cons 0x7D _ rfl, e4]
  simp

theorem jsonObjectMembers_more (fuel : Nat) (key value : String) (tail : Bytes)
    (acc : StringMap) :
    jsonObjectMembers (fuel + 1) (jsonMember (key, value) ++ 0x2C :: tail) acc =
      jsonObjectMembers fuel (skipSpace tail) (insertEntry acc key value) := by
  have hbytes : jsonMember (key, value) ++ 0x2C :: tail =
      jsonQuote key ++ (0x3A :: (jsonQuote value ++ 0x2C :: tail)) := by
    simp [jsonMember]
  have e3 : (0x3A : UInt8).toNat = 0x3A := rfl
  have e4 : (0x2C : UInt8).toNat = 0x2C := rfl
  rw [hbytes]
  conv_lhs => unfold jsonObjectMembers
  rw [jsonString_quote]
  simp only [skipSpace_cons 0x3A _ rfl, e3, if_true, skipSpace_quote, jsonMemberValue_quote,
    skipSpace_cons 0x2C _ rfl, e4]

theorem skipSpace_jsonMembers (entry : String × String) (rest : StringMap) (tail : Bytes) :
    skipSpace (jsonMembers (entry :: rest) ++ tail) = jsonMembers (entry :: rest) ++ tail := by
  cases rest with
  | nil => simp only [jsonMembers, jsonMember, List.append_assoc, skipSpace_quote]
  | cons next rest2 => simp only [jsonMembers, jsonMember, List.append_assoc, skipSpace_quote]

theorem jsonObjectMembers_encode (m : StringMap) (entry : String × String) (fuel : Nat)
    (tail : Bytes) (acc : StringMap) (hfuel : (entry :: m).length ≤ fuel)
    (hkeys : ((acc ++ entry :: m).map Prod.fst).Nodup) :
    jsonObjectMembers fuel (jsonMembers (entry :: m) ++ 0x7D :: tail) acc =
      some (acc ++ entry :: m, tail) := by
  induction m generalizing entry fuel acc with
  | nil =>
    obtain ⟨key, value⟩ := entry
    cases fuel with
    | zero => simp at hfuel
    | succ fuel =>
      have hnew : key ∉ acc.map Prod.fst := by
        simp only [List.map_append, List.map_cons, List.map_nil] at hkeys
        exact fun h => (List.nodup_append.mp hkeys).2.2 h (List.mem_singleton_self key)
      simp only [jsonMembers]
      rw [jsonObjectMembers_last, insertEntry_new acc key value hnew]
  | cons next rest ih =>
    obtain ⟨key, value⟩ := entry
    cases fuel with
    | zero => simp at hfuel
    | succ fuel =>
      have hnew : key ∉ acc.map Prod.fst := by
        simp only [List.map_append, List.map_cons] at hkeys
        exact fun h => (List.nodup_append.mp hkeys).2.2 h (List.mem_cons_self key _)
      have hbytes : jsonMembers ((key, value) :: next :: rest) ++ 0x7D :: tail =
          jsonMember (key, value) ++ 0x2C :: (jsonMembers (next :: rest) ++ 0x7D :: tail) := by
        simp [jsonMembers]
      rw [hbytes, jsonObjectMembers_more, insertEntry_new acc key value hnew,
        skipSpace_jsonMembers,
        ih next fuel (acc ++ [(key, value)]) (by simpa using hfuel) (by simpa using hkeys)]
      simp

theorem length_le_jsonMembers (m : StringMap) : m.length ≤ (jsonMembers m).length := by
  induction m with
  | nil => simp
  | cons entry rest ih =>
    cases rest with
    | nil => simp [jsonMembers, jsonMember, jsonQuote]
    | cons next rest2 =>
      have hstep : (jsonMembers (entry :: next :: rest2)).length =
          (jsonMember entry).length + 1 + (jsonMembers (next :: rest2)).length := by
        simp [jsonMembers]
        omega
      rw [hstep]
      simp only [List.length_cons] at ih ⊢
      omega

/-- The decoding of `json.Unmarshal` undoes the encoding: for every mapping with distinct
keys, whatever the characters of its keys and values, the JSON encoding of the mapping decodes
to the mapping. -/
theorem jsonUnmarshal_jsonEncode (m : StringMap) (hkeys : (m.map Prod.fst).Nodup) :
    jsonUnmarshal (jsonEncode m) = .ok (some m) := by
  have e1 : isSpace 0x7B = false := rfl
  have e2 : (0x7B : UInt8).toNat = 0x7B := rfl
  have e3 : isSpace 0x7D = false := rfl
  have e4 : (0x7D : UInt8).toNat = 0x7D := rfl
  cases m with
  | nil => simp [jsonUnmarshal, jsonEncode, jsonMembers, skipSpace, e1, e2, e3, e4, jsonFinish]
  | cons entry rest =>
    have hlen := length_le_jsonMembers (entry :: rest)
    have hskip := skipSpace_jsonMembers entry rest [0x7D]
    have hparse := jsonObjectMembers_encode rest entry (jsonEncode (entry :: rest)).length []
      [] (by simp only [jsonEncode, List.length_append, List.length_cons, List.length_nil] at hlen ⊢
             omega) (by simpa using hkeys)
    have hdata : jsonEncode (entry :: rest) = 0x7B :: (jsonMembers (entry :: rest) ++ [0x7D]) := by
      simp [jsonEncode]
    obtain ⟨rest1, hfirst⟩ : ∃ rest1,
        jsonMembers (entry :: rest) ++ [0x7D] = 0x22 :: rest1 := by
      cases rest with
      | nil => exact ⟨_, by simp only [jsonMembers, jsonMember, jsonQuote]; rfl⟩
      | cons next rest2 => exact ⟨_, by simp only [jsonMembers, jsonMember, jsonQuote]; rfl⟩
    have e5 : (0x22 : UInt8).toNat ≠ 0x7D := by decide
    unfold jsonUnmarshal
    rw [hdata, skipSpace_cons 0x7B _ rfl]
    simp only [e2, if_true, hskip]
    rw [hfirst]
    simp only [e5, if_false]
    rw [← hfirst, ← hdata, hparse]
    simp [jsonFinish, skipSpace]

/-- The decoder at concrete texts: a mapping whose characters need every kind of escape and
every width of UTF-8 comes back from its encoding; the text a writer produces that escapes
every non-ASCII character and puts a space after the colon decodes to the same mapping as the
text with the raw UTF-8 bytes; `null` leaves the variable nil; an object whose value is a
number is an error. -/
theorem jsonUnmarshal_samples :
    jsonUnmarshal (jsonEncode escapedMetadata) = .ok (some escapedMetadata) ∧
    jsonUnmarshal sampleJSON = .ok (some sampleMetadata) ∧
    jsonUnmarshal [0x7B, 0x22, 0x6B, 0x22, 0x3A, 0x20, 0x22, 0x5C, 0x75, 0x30, 0x30, 0x65, 0x39,
      0x22, 0x7D] = .ok (some sampleMetadata) ∧
    jsonUnmarshal [0x6E, 0x75, 0x6C, 0x6C] = .ok none ∧
    jsonUnmarshal [0x7B, 0x22, 0x61, 0x22, 0x3A, 0x31, 0x7D] = .error jsonError :=
  ⟨rfl, rfl, rfl, rfl, rfl⟩

/-! ## `container.Run` -/

/-- C4, as amended: for every string-to-string mapping `m` (a list of entries with distinct
keys, whatever the characters of the keys and values, listed in the order in which the JSON
text lists them), if the release container is created, attached, started and streamed without
error, has exited with status 0, and copying `/release-metadata.json` out of it yields a tar
stream with one entry whose content is the JSON encoding of `m`, then `container.Run` returns
the mapping `m`, and its error is exactly what the remove call of the engine returns: nil when
the removal succeeds. -/
theorem release_metadata_round_trip (eng : Engine) (image codeDir buildVolume : String)
    (env : StringMap) (id : String) (result : ContainerJSON) (name : String) (m : StringMap)
    (hkeys : (m.map Prod.fst).Nodup)
    (hcreate : eng.ContainerCreate = .ok id)
    (hattach : eng.ContainerAttach = none)
    (hstart : eng.ContainerStart = none)
    (hstream : eng.streamEnd = .outputDone none)
    (hinspect : eng.ContainerInspect = .ok result)
    (hexited : result.Running = false)
    (hsuccess : result.ExitCode = 0)
    (hcopy : eng.CopyFromContainer id "/release-metadata.json" =
      .ok (.entry name (jsonEncode m) .eof)) :
    (container.Run eng image codeDir buildVolume env).state = some m ∧
    (container.Run eng image codeDir buildVolume env).outcome = .returned eng.ContainerRemove ∧
    (eng.ContainerRemove = none →
      (container.Run eng image codeDir buildVolume env).outcome = .returned none) := by
  have hjson := jsonUnmarshal_jsonEncode m hkeys
  have hrun : (container.Run eng image codeDir buildVolume env).state = some m ∧
      (container.Run eng image codeDir buildVolume env).outcome =
        .returned eng.ContainerRemove := by
    simp [container.Run, Client.Run, Client.await, Client.streamHijackedResponse,
      releaseRunOptions, releaseBeforeRemove, getReleaseMetadataFromContainer, TarStream.Next,
      hcreate, hattach, hstart, hstream, hinspect, hexited, hsuccess, hcopy, hjson]
  refine ⟨hrun.1, hrun.2, fun hremove => ?_⟩
  rw [hrun.2, hremove]

/-- C4 at a concrete run: the archive holds the ten bytes of the JSON object with key `k` and a
non-ASCII value, which is the JSON encoding of `sampleMetadata`; the mapping comes back
unchanged, with a nil error, when the removal succeeds. -/
theorem release_metadata_round_trip_witness :
    jsonEncode sampleMetadata = sampleJSON ∧
    (container.Run (releaseEngine none) "release" "/src" "vol" []).state = some sampleMetadata ∧
    (container.Run (releaseEngine none) "release" "/src" "vol" []).outcome = .returned none :=
  have h := release_metadata_round_trip (releaseEngine none) "release" "/src" "vol" [] "r1"
    ⟨"r1", false, 0⟩ "release-metadata.json" sampleMetadata (by decide)
    rfl rfl rfl rfl rfl rfl rfl rfl
  ⟨by decide, h.1, h.2.2 rfl⟩

/-- C4 as stated fails: the release container exits with status 0 and the copied archive has
one entry whose content is the JSON encoding of the mapping, and `container.Run` returns the
mapping, yet its error is not nil, because the remove call of the engine failed. -/
theorem release_remove_failure_returns_error :
    (releaseEngine (some (.errorString "removal in progress"))).ContainerInspect =
      .ok ⟨"r1", false, 0⟩ ∧
    (releaseEngine (some (.errorString "removal in progress"))).CopyFromContainer "r1"
      "/release-metadata.json" =
        .ok (.entry "release-metadata.json" (jsonEncode sampleMetadata) .eof) ∧
    (container.Run (releaseEngine (some (.errorString "removal in progress")))
      "release" "/src" "vol" []).state = some sampleMetadata ∧
    (container.Run (releaseEngine (some (.errorString "removal in progress")))
      "release" "/src" "vol" []).outcome =
        .returned (some (.errorString "removal in progress")) ∧
    (container.Run (releaseEngine (some (.errorString "removal in progress")))
      "release" "/src" "vol" []).outcome ≠ .returned none :=
  ⟨rfl, rfl, by decide, by decide, by decide⟩

/-! ## `destroy.RunCommand`: command assembly -/

theorem env_flag_text (envName : String) :
    "-var-file=../" ++ ("config/" ++ envName ++ ".json") =
      "-var-file=../config/" ++ envName ++ ".json" := by
  have h : "-var-file=../" ++ "config/" = "-var-file=../config/" := by decide
  rw [← h]
  simp only [String.append_assoc]

theorem planCommand_eq (host : String → HostPath) (args : CommandArgs) :
    planCommand host args =
      ["terraform", "plan", "-destroy"] ++
        (if args.Version ≠ "" then ["-var-file=/build/release-metadata.json"] else []) ++
        (if osIsNotExist (osStat (host "config/common.json")) then []
          else ["-var-file=../config/common.json"]) ++
        (if osIsNotExist (osStat (host ("config/" ++ args.EnvName ++ ".json"))) then []
          else ["-var-file=../config/" ++ args.EnvName ++ ".json"]) := by
  have hcommon : "-var-file=../" ++ "config/common.json" = "-var-file=../config/common.json" := by
    decide
  simp only [planCommand, assembleCommands, env_flag_text, hcommon]
  by_cases hv : args.Version = "" <;>
    by_cases h1 : osIsNotExist (osStat (host "config/common.json")) = true <;>
    by_cases h2 : osIsNotExist (osStat (host ("config/" ++ args.EnvName ++ ".json"))) = true <;>
    simp [hv, h1, h2]

theorem planCommand_take (host : String → HostPath) (args : CommandArgs) :
    (planCommand host args).take 2 = ["terraform", "plan"] := by
  rw [planCommand_eq]
  simp

theorem destroyCommand_take (host : String → HostPath) (args : CommandArgs) :
    (destroyCommand host args).take 2 = ["terraform", "destroy"] := by
  simp only [destroyCommand, assembleCommands]
  by_cases hv : args.Version = "" <;>
    by_cases h1 : osIsNotExist (osStat (host "config/common.json")) = true <;>
    by_cases h2 : osIsNotExist (osStat (host ("config/" ++ args.EnvName ++ ".json"))) = true <;>
    simp [hv, h1, h2]

theorem destroyCommand_ne_planCommand (host : String → HostPath) (args : CommandArgs) :
    destroyCommand host args ≠ planCommand host args := by
  intro heq
  have h := destroyCommand_take host args
  rw [heq, planCommand_take] at h
  simp at h

/-- C5, as amended: for every environment name, version and host, the plan command is exactly
`terraform plan -destroy`, followed by the release metadata var-file flag if and only if the
version is not empty, then the flag of `config/common.json` if and only if `os.Stat` of that
path does not fail with a not-exist error, then the flag of the environment file under the same
condition, in that order and with nothing else. Assembly has no error result, so a missing file
only omits its flag. -/
theorem plan_command_assembly (host : String → HostPath) (args : CommandArgs) :
    planCommand host args =
      ["terraform", "plan", "-destroy"] ++
        (if args.Version ≠ "" then ["-var-file=/build/release-metadata.json"] else []) ++
        (if osIsNotExist (osStat (host "config/common.json")) then []
          else ["-var-file=../config/common.json"]) ++
        (if osIsNotExist (osStat (host ("config/" ++ args.EnvName ++ ".json"))) then []
          else ["-var-file=../config/" ++ args.EnvName ++ ".json"]) :=
  planCommand_eq host args

/-- C5 as stated fails: on a host where `config` is a regular file neither configuration file
exists, so the command of the specification has no configuration var-file flag, but `os.Stat`
fails with `ENOTDIR`, which is not a not-exist error, and the assembled command has both. -/
theorem plan_command_flag_without_file :
    (configIsFileHost "config/common.json").Exists = false ∧
    (configIsFileHost "config/live.json").Exists = false ∧
    specPlanCommand configIsFileHost liveArgs =
      ["terraform", "plan", "-destroy", "-var-file=/build/release-metadata.json"] ∧
    planCommand configIsFileHost liveArgs =
      ["terraform", "plan", "-destroy", "-var-file=/build/release-metadata.json",
        "-var-file=../config/common.json", "-var-file=../config/live.json"] ∧
    planCommand configIsFileHost liveArgs ≠ specPlanCommand configIsFileHost liveArgs := by
  decide

/-- Where `os.Stat` can examine both configuration paths (each is there, or is reported as not
existing), the assembled plan command is the one of the specification. -/
theorem planCommand_eq_spec (host : String → HostPath) (args : CommandArgs)
    (hcommon : host "config/common.json" = .present ∨ host "config/common.json" = .absent)
    (henv : host ("config/" ++ args.EnvName ++ ".json") = .present ∨
      host ("config/" ++ args.EnvName ++ ".json") = .absent) :
    planCommand host args = specPlanCommand host args := by
  rw [planCommand_eq]
  unfold specPlanCommand
  rcases hcommon with h1 | h1 <;> rcases henv with h2 | h2 <;>
    simp [h1, h2, osStat, osIsNotExist, HostPath.Exists]

/-! ## `destroy.RunCommand`: deferred cleanup -/

theorem runCommand_result (w : Pipeline) (codeDir : String) (args : CommandArgs)
    (setup : SetupResult) (hsetup : w.SetupTerraform = .ok setup) :
    (RunCommand w codeDir args).2 =
      joinCleanup
        (match w.NewContainer with
          | some _ => primaryError w args
          | none => joinCleanup (primaryError w args) w.Done)
        (w.RemoveVolume setup.buildVolume) := by
  simp only [RunCommand, runWithVolume, primaryError, hsetup]
  cases w.NewContainer <;> rfl

theorem primaryError_returned (w : Pipeline) (codeDir : String) (args : CommandArgs)
    (setup : SetupResult) (e : GoError) (hsetup : w.SetupTerraform = .ok setup)
    (hprimary : primaryError w args = some e) :
    ∃ r, (RunCommand w codeDir args).2 = some r ∧ r.Wraps e := by
  rw [runCommand_result w codeDir args setup hsetup, hprimary]
  cases w.NewContainer with
  | some x => exact joinCleanup_wraps e e _ (wraps_self e)
  | none =>
    obtain ⟨r, hr, hwraps⟩ := joinCleanup_wraps e e w.Done (wraps_self e)
    simp only [hr]
    exact joinCleanup_wraps r e _ hwraps

/-- C6: in a run of `destroy.RunCommand` whose setup succeeded, writing `e` for the error of
the `return` statement reached: if `RemoveVolume` fails with `c`, or the container was created
and `Done` fails with `c`, the one returned error mentions the message of `e` and the message
of `c`; if no step of the pipeline failed and exactly one cleanup step fails, its error is
returned; and if `Done` and `RemoveVolume` both fail, the returned error mentions both of
their messages. -/
theorem cleanup_errors_joined (w : Pipeline) (codeDir : String) (args : CommandArgs)
    (setup : SetupResult) (hsetup : w.SetupTerraform = .ok setup) :
    (∀ e c, primaryError w args = some e → w.RemoveVolume setup.buildVolume = some c →
      ∃ r, (RunCommand w codeDir args).2 = some r ∧
        Mentions r.Error e.Error ∧ Mentions r.Error c.Error) ∧
    (∀ e c, primaryError w args = some e → w.NewContainer = none → w.Done = some c →
      ∃ r, (RunCommand w codeDir args).2 = some r ∧
        Mentions r.Error e.Error ∧ Mentions r.Error c.Error) ∧
    (∀ c, primaryError w args = none → w.Done = some c →
      w.RemoveVolume setup.buildVolume = none → (RunCommand w codeDir args).2 = some c) ∧
    (∀ c, primaryError w args = none → w.Done = none →
      w.RemoveVolume setup.buildVolume = some c → (RunCommand w codeDir args).2 = some c) ∧
    (∀ d v, w.NewContainer = none → w.Done = some d →
      w.RemoveVolume setup.buildVolume = some v →
      ∃ r, (RunCommand w codeDir args).2 = some r ∧
        Mentions r.Error d.Error ∧ Mentions r.Error v.Error) := by
  rw [runCommand_result w codeDir args setup hsetup]
  refine ⟨?_, ?_, ?_, ?_, ?_⟩
  · intro e c he hc
    rw [he, hc]
    cases hnew : w.NewContainer with
    | some _ =>
      exact ⟨_, rfl, alsoError_mentions_returned _ _, alsoError_mentions_cleanup _ _⟩
    | none =>
      cases hdone : w.Done with
      | none => exact ⟨_, rfl, alsoError_mentions_returned _ _, alsoError_mentions_cleanup _ _⟩
      | some d =>
        exact ⟨_, rfl,
          mentions_trans (alsoError_mentions_returned _ _) (alsoError_mentions_returned _ _),
          alsoError_mentions_cleanup _ _⟩
  · intro e c he hnew hc
    rw [he, hnew, hc]
    cases hvol : w.RemoveVolume setup.buildVolume with
    | none => exact ⟨_, rfl, alsoError_mentions_returned _ _, alsoError_mentions_cleanup _ _⟩
    | some v =>
      exact ⟨_, rfl,
        mentions_trans (alsoError_mentions_returned _ _) (alsoError_mentions_returned _ _),
        mentions_trans (alsoError_mentions_returned _ _) (alsoError_mentions_cleanup _ _)⟩
  · intro c he hdone hvol
    cases hnew : w.NewContainer with
    | some x => simp [primaryError, hsetup, hnew] at he
    | none => simp [he, hdone, hvol, joinCleanup]
  · intro c he hdone hvol
    cases hnew : w.NewContainer with
    | some x => simp [primaryError, hsetup, hnew] at he
    | none => simp [he, hdone, hvol, joinCleanup]
  · intro d v hnew hdone hvol
    rw [hnew, hdone, hvol]
    cases primaryError w args with
    | none => exact ⟨_, rfl, alsoError_mentions_returned _ _, alsoError_mentions_cleanup _ _⟩
    | some e =>
      exact ⟨_, rfl,
        mentions_trans (alsoError_mentions_returned _ _) (alsoError_mentions_cleanup _ _),
        alsoError_mentions_cleanup _ _⟩

/-- C6 at a concrete run: the plan fails, `Done` fails and `RemoveVolume` fails, and the one
returned error is `plan failed, also stop failed, also volume in use`. -/
theorem cleanup_errors_joined_witness :
    ∃ r, (RunCommand allFailPipeline "/src" liveArgs).2 = some r ∧
      r.Error = "plan failed, also stop failed, also volume in use" ∧
      Mentions r.Error "plan failed" ∧ Mentions r.Error "stop failed" ∧
      Mentions r.Error "volume in use" := by
  have h := cleanup_errors_joined allFailPipeline "/src" liveArgs sampleSetup rfl
  obtain ⟨r, hr, hplan, hvol⟩ := h.1 (.errorString "plan failed") (.errorString "volume in use")
    (by decide) rfl
  obtain ⟨r2, hr2, -, hdone⟩ := h.2.1 (.errorString "plan failed") (.errorString "stop failed")
    (by decide) rfl rfl
  rw [hr] at hr2
  cases hr2
  refine ⟨r, hr, ?_, hplan, hdone, hvol⟩
  have hval : (RunCommand allFailPipeline "/src" liveArgs).2 =
      some (alsoError (alsoError (.errorString "plan failed") (.errorString "stop failed"))
        (.errorString "volume in use")) := by decide
  rw [hval] at hr
  cases hr
  decide

/-! ## `destroy.RunCommand`: steps -/

theorem removeVolumeCount_append (a b : List Step) :
    removeVolumeCount (a ++ b) = removeVolumeCount a + removeVolumeCount b := by
  simp [removeVolumeCount]

theorem runTerraform_no_removeVolume (w : Pipeline) (args : CommandArgs) (setup : SetupResult) :
    removeVolumeCount (runTerraform w args setup).1 = 0 := by
  simp only [runTerraform]
  cases w.CopyTerraformLockIfExists <;> cases w.ConfigureBackend <;>
    cases w.SwitchWorkspace args.EnvName <;> cases w.RunCommand (planCommand w.host args) <;>
    cases w.RunCommand (destroyCommand w.host args) <;> cases args.PlanOnly <;>
    simp [removeVolumeCount]

theorem runTerraform_no_done (w : Pipeline) (args : CommandArgs) (setup : SetupResult) :
    Step.done ∉ (runTerraform w args setup).1 := by
  simp only [runTerraform]
  cases w.CopyTerraformLockIfExists <;> cases w.ConfigureBackend <;>
    cases w.SwitchWorkspace args.EnvName <;> cases w.RunCommand (planCommand w.host args) <;>
    cases w.RunCommand (destroyCommand w.host args) <;> cases args.PlanOnly <;>
    simp

/-- C7, as amended: when `config.SetupTerraform` fails, `destroy.RunCommand` takes no further
step, so it calls neither `RemoveVolume` nor `Done`. When setup succeeds, on every exit path
the steps end with the one `RemoveVolume` call of the run, made for the build volume that setup
returned; and `Done` is called exactly once, before that removal, when the terraform container
was created, and not at all when its creation failed. -/
theorem volume_removed_once (w : Pipeline) (codeDir : String) (args : CommandArgs) :
    match w.SetupTerraform with
    | .error _ =>
      (RunCommand w codeDir args).1 =
        [Step.setupTerraform args.StateShouldExist args.EnvName args.Version]
    | .ok setup =>
      ∃ front, (RunCommand w codeDir args).1 = front ++ [Step.removeVolume setup.buildVolume] ∧
        removeVolumeCount front = 0 ∧
        removeVolumeCount (RunCommand w codeDir args).1 = 1 ∧
        front.count Step.done = (if w.NewContainer = none then 1 else 0) := by
  cases hsetup : w.SetupTerraform with
  | error err => simp [RunCommand, hsetup]
  | ok setup =>
    simp only [RunCommand, hsetup]
    refine ⟨_, rfl, ?_, ?_, ?_⟩
    · simp only [runWithVolume]
      cases w.NewContainer with
      | some err => simp [removeVolumeCount]
      | none =>
        simp only [removeVolumeCount_append, runTerraform_no_removeVolume]
        simp [removeVolumeCount]
    · simp only [runWithVolume]
      cases w.NewContainer with
      | some err => simp [removeVolumeCount]
      | none =>
        simp only [removeVolumeCount_append, runTerraform_no_removeVolume]
        simp [removeVolumeCount]
    · simp only [runWithVolume]
      cases w.NewContainer with
      | some err => simp
      | none =>
        simp [List.count_eq_zero.mpr (runTerraform_no_done w args setup)]

/-- C7 as stated fails on the exit path of a setup failure: `RunCommand` returns after the one
step `SetupTerraform`, and the number of `RemoveVolume` calls is 0, not 1. -/
theorem setup_failure_removes_no_volume :
    setupFailsPipeline.SetupTerraform = .error (.errorString "config container failed") ∧
    (RunCommand setupFailsPipeline "/src" liveArgs).1 =
      [Step.setupTerraform (some true) "live" "1"] ∧
    (RunCommand setupFailsPipeline "/src" liveArgs).2 =
      some (.errorString "config container failed") ∧
    removeVolumeCount (RunCommand setupFailsPipeline "/src" liveArgs).1 = 0 ∧
    removeVolumeCount (RunCommand setupFailsPipeline "/src" liveArgs).1 ≠ 1 :=
  ⟨rfl, by decide, by decide, by decide, by decide⟩

/-- C8: in a run of `destroy.RunCommand` with `PlanOnly` set in which setup, container
creation, lock copy, backend configuration, workspace switch and the plan command succeed,
exactly one command is run through `RunCommand` of the container, it is the plan command, which
starts with `terraform plan -destroy`; no command that starts with `terraform destroy` is run,
the destroy command in particular; the result is what the two cleanup steps leave of a nil
error, which is nil when both succeed. -/
theorem plan_only_runs_plan_alone (w : Pipeline) (codeDir : String) (args : CommandArgs)
    (setup : SetupResult)
    (hplanOnly : args.PlanOnly = true)
    (hsetup : w.SetupTerraform = .ok setup)
    (hcontainer : w.NewContainer = none)
    (hlock : w.CopyTerraformLockIfExists = none)
    (hbackend : w.ConfigureBackend = none)
    (hswitch : w.SwitchWorkspace args.EnvName = none)
    (hplan : w.RunCommand (planCommand w.host args) = none) :
    commandsRun (RunCommand w codeDir args).1 = [planCommand w.host args] ∧
    (planCommand w.host args).take 3 = ["terraform", "plan", "-destroy"] ∧
    (∀ cmd ∈ commandsRun (RunCommand w codeDir args).1, cmd.take 2 ≠ ["terraform", "destroy"]) ∧
    destroyCommand w.host args ∉ commandsRun (RunCommand w codeDir args).1 ∧
    (RunCommand w codeDir args).2 =
      joinCleanup (joinCleanup none w.Done) (w.RemoveVolume setup.buildVolume) ∧
    (w.Done = none → w.RemoveVolume setup.buildVolume = none →
      (RunCommand w codeDir args).2 = none) := by
  have hsteps : commandsRun (RunCommand w codeDir args).1 = [planCommand w.host args] := by
    simp [RunCommand, runWithVolume, runTerraform, hplanOnly, hsetup, hcontainer, hlock,
      hbackend, hswitch, hplan, commandsRun]
  have hresult : (RunCommand w codeDir args).2 =
      joinCleanup (joinCleanup none w.Done) (w.RemoveVolume setup.buildVolume) := by
    simp [RunCommand, runWithVolume, runTerraform, hplanOnly, hsetup, hcontainer, hlock,
      hbackend, hswitch, hplan]
  have htake : (planCommand w.host args).take 3 = ["terraform", "plan", "-destroy"] := by
    rw [planCommand_eq]
    simp
  refine ⟨hsteps, htake, ?_, ?_, hresult, ?_⟩
  · intro cmd hcmd
    rw [hsteps, List.mem_singleton] at hcmd
    rw [hcmd, planCommand_take]
    simp
  · rw [hsteps, List.mem_singleton]
    exact destroyCommand_ne_planCommand w.host args
  · intro hdone hvol
    rw [hresult, hdone, hvol]
    rfl

/-- C8 at a concrete run: with `--plan-only live 1` and every collaborator succeeding, the one
command run is the plan command and the result is nil. -/
theorem plan_only_runs_plan_alone_witness :
    commandsRun (RunCommand healthyPipeline "/src" livePlanOnlyArgs).1 =
      [["terraform", "plan", "-destroy", "-var-file=/build/release-metadata.json"]] ∧
    (RunCommand healthyPipeline "/src" livePlanOnlyArgs).2 = none :=
  have h := plan_only_runs_plan_alone healthyPipeline "/src" livePlanOnlyArgs sampleSetup
    rfl rfl rfl rfl rfl rfl rfl
  ⟨h.1.trans (by decide), h.2.2.2.2.2 rfl rfl⟩

theorem switched_before_of_check (name : String) (steps : List Step)
    (hcheck : switchedBeforeCommands name steps = true) (front rest : List Step)
    (cmd : List String) (env : StringMap)
    (hsplit : steps = front ++ Step.runCommand cmd env :: rest) :
    Step.switchWorkspace name ∈ front := by
  induction steps generalizing front with
  | nil => simp at hsplit
  | cons step tail ih =>
    cases front with
    | nil =>
      simp only [List.nil_append, List.cons.injEq] at hsplit
      rw [hsplit.1] at hcheck
      simp [switchedBeforeCommands] at hcheck
    | cons first front2 =>
      simp only [List.cons_append, List.cons.injEq] at hsplit
      obtain ⟨hfirst, htail⟩ := hsplit
      subst hfirst
      by_cases hstep : step = Step.switchWorkspace name
      · simp [hstep]
      · have hrest : switchedBeforeCommands name tail = true := by
          cases step <;> simp_all [switchedBeforeCommands]
        exact List.mem_cons_of_mem _ (ih hrest front2 htail)

theorem runCommand_switched_before (w : Pipeline) (codeDir : String) (args : CommandArgs) :
    switchedBeforeCommands args.EnvName (RunCommand w codeDir args).1 = true := by
  simp only [RunCommand, runWithVolume, runTerraform]
  cases w.SetupTerraform <;> cases w.NewContainer <;>
    cases w.CopyTerraformLockIfExists <;> cases w.ConfigureBackend <;>
    cases w.SwitchWorkspace args.EnvName <;> cases w.RunCommand (planCommand w.host args) <;>
    cases w.RunCommand (destroyCommand w.host args) <;> cases args.PlanOnly <;>
    simp [switchedBeforeCommands]

theorem commandsRun_of_switch_failure (w : Pipeline) (codeDir : String) (args : CommandArgs)
    (e : GoError) (hswitch : w.SwitchWorkspace args.EnvName = some e) :
    commandsRun (RunCommand w codeDir args).1 = [] := by
  simp only [RunCommand, runWithVolume, runTerraform, hswitch]
  cases w.SetupTerraform <;> cases w.NewContainer <;>
    cases w.CopyTerraformLockIfExists <;> cases w.ConfigureBackend <;>
    simp [commandsRun]

theorem commandsRun_of_plan_failure (w : Pipeline) (codeDir : String) (args : CommandArgs)
    (e : GoError) (hplan : w.RunCommand (planCommand w.host args) = some e) :
    commandsRun (RunCommand w codeDir args).1 = [] ∨
      commandsRun (RunCommand w codeDir args).1 = [planCommand w.host args] := by
  simp only [RunCommand, runWithVolume, runTerraform, hplan]
  cases w.SetupTerraform <;> cases w.NewContainer <;>
    cases w.CopyTerraformLockIfExists <;> cases w.ConfigureBackend <;>
    cases w.SwitchWorkspace args.EnvName <;>
    simp [commandsRun]

/-- C9: in every run of `destroy.RunCommand`: if the workspace switch to the environment fails,
no command is run; if the plan command fails, the destroy command is not run; in a run that
reaches the failing step (setup, container creation, lock copy and backend configuration
succeed), the returned error is the error of the failing step or wraps it; and every command
run is preceded by the switch to the workspace named by the environment name. -/
theorem fail_fast_sequencing (w : Pipeline) (codeDir : String) (args : CommandArgs) :
    (∀ e, w.SwitchWorkspace args.EnvName = some e →
      commandsRun (RunCommand w codeDir args).1 = []) ∧
    (∀ e, w.RunCommand (planCommand w.host args) = some e →
      destroyCommand w.host args ∉ commandsRun (RunCommand w codeDir args).1 ∧
      ∀ cmd ∈ commandsRun (RunCommand w codeDir args).1, cmd = planCommand w.host args) ∧
    (∀ setup e, w.SetupTerraform = .ok setup → w.NewContainer = none →
      w.CopyTerraformLockIfExists = none → w.ConfigureBackend = none →
      w.SwitchWorkspace args.EnvName = some e →
      ∃ r, (RunCommand w codeDir args).2 = some r ∧ r.Wraps e) ∧
    (∀ setup e, w.SetupTerraform = .ok setup → w.NewContainer = none →
      w.CopyTerraformLockIfExists = none → w.ConfigureBackend = none →
      w.SwitchWorkspace args.EnvName = none →
      w.RunCommand (planCommand w.host args) = some e →
      commandsRun (RunCommand w codeDir args).1 = [planCommand w.host args] ∧
      ∃ r, (RunCommand w codeDir args).2 = some r ∧ r.Wraps e) ∧
    (∀ front rest cmd env,
      (RunCommand w codeDir args).1 = front ++ Step.runCommand cmd env :: rest →
      Step.switchWorkspace args.EnvName ∈ front) := by
  refine ⟨?_, ?_, ?_, ?_, ?_⟩
  · intro e hswitch
    exact commandsRun_of_switch_failure w codeDir args e hswitch
  · intro e hplan
    rcases commandsRun_of_plan_failure w codeDir args e hplan with h | h
    · rw [h]
      simp
    · rw [h]
      simp only [List.mem_singleton]
      exact ⟨destroyCommand_ne_planCommand w.host args, fun cmd hcmd => hcmd⟩
  · intro setup e hsetup hcontainer hlock hbackend hswitch
    refine primaryError_returned w codeDir args setup e hsetup ?_
    simp [primaryError, runTerraform, hsetup, hcontainer, hlock, hbackend, hswitch]
  · intro setup e hsetup hcontainer hlock hbackend hswitch hplan
    refine ⟨?_, primaryError_returned w codeDir args setup e hsetup ?_⟩
    · simp [RunCommand, runWithVolume, runTerraform, hsetup, hcontainer, hlock, hbackend,
        hswitch, hplan, commandsRun]
    · simp [primaryError, runTerraform, hsetup, hcontainer, hlock, hbackend, hswitch, hplan]
  · intro front rest cmd env hsplit
    exact switched_before_of_check args.EnvName _ (runCommand_switched_before w codeDir args)
      front rest cmd env hsplit

/-- C9 at concrete runs: when the workspace switch fails no command is run and the switch
error is returned; when the plan fails and both cleanup steps fail, only the plan command was
run and the returned error wraps the plan error. -/
theorem fail_fast_sequencing_witness :
    commandsRun (RunCommand switchFailsPipeline "/src" liveArgs).1 = [] ∧
    (∃ r, (RunCommand switchFailsPipeline "/src" liveArgs).2 = some r ∧
      r.Wraps (.errorString "no such workspace")) ∧
    commandsRun (RunCommand allFailPipeline "/src" liveArgs).1 =
      [["terraform", "plan", "-destroy", "-var-file=/build/release-metadata.json"]] ∧
    (∃ r, (RunCommand allFailPipeline "/src" liveArgs).2 = some r ∧
      r.Wraps (.errorString "plan failed")) :=
  ⟨(fail_fast_sequencing switchFailsPipeline "/src" liveArgs).1 _ rfl,
    (fail_fast_sequencing switchFailsPipeline "/src" liveArgs).2.2.1 sampleSetup _
      rfl rfl rfl rfl rfl,
    ((fail_fast_sequencing allFailPipeline "/src" liveArgs).2.2.2.1 sampleSetup _
      rfl rfl rfl rfl rfl rfl).1.trans (by decide),
    ((fail_fast_sequencing allFailPipeline "/src" liveArgs).2.2.2.1 sampleSetup _
      rfl rfl rfl rfl rfl rfl).2⟩

/-! ## `Client.Exec` -/

/-- A non-zero exit status is not swallowed by `Client.Exec`: when create, attach, start,
streaming and inspect succeed and the exit code is not 0, `Exec` returns the error built from
`string(details.ExitCode)`. -/
theorem exec_nonzero_exit_returns_error (eng : ExecEngine) (options : ExecOptions)
    (execID : String) (exitCode : Int)
    (hcreate : eng.ContainerExecCreate = .ok execID)
    (hattach : eng.ContainerExecAttach = none)
    (hstart : eng.ContainerExecStart = none)
    (hstream : eng.streamEnd = .outputDone none)
    (hinspect : eng.ContainerExecInspect = .ok exitCode)
    (hexit : exitCode ≠ 0) :
    (Client.Exec eng options).2 = some (.errorString (execStatusMessage exitCode)) := by
  simp [Client.Exec, Client.streamHijackedResponse, hcreate, hattach, hstart, hstream, hinspect,
    hexit]

set_option maxRecDepth 1000000 in
/-- For each exit code from 1 to 255 the message `Client.Exec` builds does not contain the
exit code in decimal. -/
theorem exec_message_never_decimal :
    ((List.range 255).all fun n =>
      decide (¬ Mentions (execStatusMessage ((n : Int) + 1)) (fmtDecimal ((n : Int) + 1)))) =
      true := by
  decide

/-- C10: with exit code 1 and every exec call succeeding, `Client.Exec` returns an error, so
the status is not swallowed, but the message ends with the character of code point 1 and does
not contain the decimal text `1` of the exit code; with exit code 65 the message ends with the
letter `A`. -/
theorem exec_exit_code_not_in_message :
    (Client.Exec (execExitEngine 1) ⟨"c1", ["true"]⟩).2 =
      some (.errorString "exec process exited with error status code \x01") ∧
    fmtDecimal 1 = "1" ∧
    ¬ Mentions "exec process exited with error status code \x01" (fmtDecimal 1) ∧
    (Client.Exec (execExitEngine 65) ⟨"c1", ["true"]⟩).2 =
      some (.errorString "exec process exited with error status code A") ∧
    ¬ Mentions "exec process exited with error status code A" (fmtDecimal 65) := by
  decide

/-! ## `Client.Run`: order of the calls -/

theorem mem_front_of_precededBy (isFirst isLater : Call → Bool)
    (hdisjoint : ∀ call, isLater call = true → isFirst call = false) (calls : List Call)
    (hcheck : precededBy isFirst isLater calls = true) (front rest : List Call) (call : Call)
    (hlater : isLater call = true) (hsplit : calls = front ++ call :: rest) :
    ∃ first ∈ front, isFirst first = true := by
  induction calls generalizing front with
  | nil => simp at hsplit
  | cons head tail ih =>
    cases front with
    | nil =>
      simp only [List.nil_append, List.cons.injEq] at hsplit
      rw [hsplit.1] at hcheck
      simp [precededBy, hdisjoint call hlater, hlater] at hcheck
    | cons first front2 =>
      simp only [List.cons_append, List.cons.injEq] at hsplit
      obtain ⟨hhead, htail⟩ := hsplit
      subst hhead
      by_cases hfirst : isFirst head = true
      · exact ⟨head, List.mem_cons_self _ _, hfirst⟩
      · have hrest : precededBy isFirst isLater tail = true := by
          by_cases hl : isLater head = true <;> simp_all [precededBy]
        obtain ⟨x, hx, hfx⟩ := ih hrest front2 htail
        exact ⟨x, List.mem_cons_of_mem _ hx, hfx⟩

theorem precededBy_of_append (isFirst isLater : Call → Bool) (a b : List Call)
    (h : precededBy isFirst isLater (a ++ b) = true) : precededBy isFirst isLater a = true := by
  induction a with
  | nil => rfl
  | cons head tail ih =>
    simp only [List.cons_append, precededBy] at h ⊢
    by_cases hfirst : isFirst head = true
    · simp [hfirst]
    · by_cases hlater : isLater head = true
      · simp [hfirst, hlater] at h
      · simp only [hfirst, hlater] at h ⊢
        exact ih h

theorem run_calls_initial {σ : Type} (eng : Engine) (options : RunOptions σ) (s : σ) :
    (Client.Run eng options s).calls <+:
      specRunOrder options (createdID eng) (hookCalls options (createdID eng) s) := by
  simp only [Client.Run, Client.await, Client.streamHijackedResponse, specRunOrder, createdID,
    hookCalls]
  cases eng.ContainerCreate with
  | error err => exact ⟨_, rfl⟩
  | ok id =>
    cases eng.ContainerAttach with
    | some err => exact ⟨_, rfl⟩
    | none =>
      cases eng.ContainerStart with
      | some err => cases options.InputStream <;> cases options.Started <;> simp
      | none =>
        cases eng.streamEnd with
        | contextDone err => cases options.InputStream <;> cases options.Started <;> simp
        | outputDone streamErr =>
          cases streamErr with
          | some err => cases options.InputStream <;> cases options.Started <;> simp
          | none =>
            cases eng.ContainerInspect with
            | error err => cases options.InputStream <;> cases options.Started <;> simp
            | ok result =>
              obtain ⟨resultID, running, exitCode⟩ := result
              cases running with
              | true => cases options.InputStream <;> cases options.Started <;> simp
              | false =>
                by_cases hcode : exitCode = options.SuccessStatus
                · cases options.BeforeRemove with
                  | none => cases options.InputStream <;> cases options.Started <;> simp [hcode]
                  | some hook =>
                    cases herr : (hook id s).err <;> cases options.InputStream <;>
                      cases options.Started <;> simp [hcode, herr]
                · cases options.InputStream <;> cases options.Started <;> simp [hcode]

theorem specRunOrder_attach_first {σ : Type} (options : RunOptions σ) (id : String)
    (hook : List Call) :
    precededBy Call.isAttach Call.isStart (specRunOrder options id hook) = true := by
  simp [specRunOrder, precededBy, Call.isAttach, Call.isStart]

theorem specRunOrder_output_first {σ : Type} (options : RunOptions σ) (id : String)
    (hook : List Call) :
    precededBy (fun call => decide (call = Call.copyOutput)) Call.isStart
      (specRunOrder options id hook) = true := by
  cases hinput : options.InputStream <;>
    simp [specRunOrder, precededBy, Call.isStart, hinput]

/-- C11: in every run of `Client.Run` the calls made are an initial part of the sequence
create, attach, input copier (with an input stream), output copier, start, send on `started`
(with that channel), inspect, `BeforeRemove` callback with its own calls (with a callback),
remove. Any `ContainerStart` in the calls comes after an attach call and after the start of
the output copier, and is only made when the attach call succeeded; when the attach call
fails, no start call is made; and when the start call fails, after create and attach
succeeded, its error is the error of the run and no inspect call is made. -/
theorem run_call_order {σ : Type} (eng : Engine) (options : RunOptions σ) (s : σ) :
    (Client.Run eng options s).calls <+:
      specRunOrder options (createdID eng) (hookCalls options (createdID eng) s) ∧
    (∀ front rest call, call.isStart = true →
      (Client.Run eng options s).calls = front ++ call :: rest →
      (∃ attach ∈ front, attach.isAttach = true) ∧ Call.copyOutput ∈ front ∧
        eng.ContainerAttach = none) ∧
    (∀ e, eng.ContainerAttach = some e →
      ∀ call ∈ (Client.Run eng options s).calls, call.isStart = false) ∧
    (∀ id e, eng.ContainerCreate = .ok id → eng.ContainerAttach = some e →
      (Client.Run eng options s).outcome = .returned (some e)) ∧
    (∀ id e, eng.ContainerCreate = .ok id → eng.ContainerAttach = none →
      eng.ContainerStart = some e →
      (Client.Run eng options s).outcome = .returned (some e) ∧
      ∀ call ∈ (Client.Run eng options s).calls, call.isInspect = false) := by
  have hattachFails : ∀ e, eng.ContainerAttach = some e →
      ∀ call ∈ (Client.Run eng options s).calls, call.isStart = false := by
    intro e hattach
    simp only [Client.Run, Client.await, hattach]
    cases eng.ContainerCreate <;> simp [Call.isStart]
  refine ⟨run_calls_initial eng options s, ?_, hattachFails, ?_, ?_⟩
  · intro front rest call hstart hsplit
    obtain ⟨tail, htail⟩ := run_calls_initial eng options s
    have hattach := precededBy_of_append _ _ _ tail
      (htail ▸ specRunOrder_attach_first options (createdID eng)
        (hookCalls options (createdID eng) s))
    have houtput := precededBy_of_append _ _ _ tail
      (htail ▸ specRunOrder_output_first options (createdID eng)
        (hookCalls options (createdID eng) s))
    refine ⟨?_, ?_, ?_⟩
    · exact mem_front_of_precededBy _ _ (by intro c hc; cases c <;> simp_all [Call.isStart,
        Call.isAttach]) _ hattach front rest call hstart hsplit
    · obtain ⟨x, hx, hxo⟩ := mem_front_of_precededBy _ _ (by
        intro c hc; cases c <;> simp_all [Call.isStart]) _ houtput front rest call hstart hsplit
      simp only [decide_eq_true_eq] at hxo
      exact hxo ▸ hx
    · cases hatt : eng.ContainerAttach with
      | none => rfl
      | some e =>
        have hno := hattachFails e hatt call (by rw [hsplit]; simp)
        rw [hstart] at hno
        cases hno
  · intro id e hcreate hattach
    simp [Client.Run, Client.await, hcreate, hattach]
  · intro id e hcreate hattach hstart
    constructor
    · simp [Client.Run, Client.await, Client.streamHijackedResponse, hcreate, hattach, hstart]
    · simp only [Client.Run, Client.await, Client.streamHijackedResponse, hcreate, hattach,
        hstart]
      cases options.InputStream <;> simp [Call.isInspect]

/-- C11 at concrete runs: a failing attach gives the calls create, attach and the attach
error; a failing start gives create, attach, output copier, start and the start error; a
successful run is the full sequence. -/
theorem run_call_order_witness :
    (Client.Run attachFailsEngine plainOptions ()).calls =
      [.containerCreate "alpine" false, .containerAttach "c1" false] ∧
    (Client.Run attachFailsEngine plainOptions ()).outcome =
      .returned (some (.errorString "cannot hijack")) ∧
    (∀ call ∈ (Client.Run attachFailsEngine plainOptions ()).calls, call.isStart = false) ∧
    (Client.Run startFailsEngine plainOptions ()).outcome =
      .returned (some (.errorString "no such image")) ∧
    (∀ call ∈ (Client.Run startFailsEngine plainOptions ()).calls, call.isInspect = false) ∧
    (Client.Run (exitEngine 0) plainOptions ()).calls <+:
      [.containerCreate "alpine" false, .containerAttach "c1" false, .copyOutput,
        .containerStart "c1", .containerInspect "c1", .containerRemove "c1"] :=
  ⟨by decide,
    (run_call_order attachFailsEngine plainOptions ()).2.2.2.1 "c1" _ rfl rfl,
    (run_call_order attachFailsEngine plainOptions ()).2.2.1 _ rfl,
    ((run_call_order startFailsEngine plainOptions ()).2.2.2.2 "c1" _ rfl rfl rfl).1,
    ((run_call_order startFailsEngine plainOptions ()).2.2.2.2 "c1" _ rfl rfl rfl).2,
    (run_call_order (exitEngine 0) plainOptions ()).1⟩

/-! ## `mapToDockerEnv` -/

theorem lookup_of_mem (m : StringMap) (hkeys : (m.map Prod.fst).Nodup) (key value : String)
    (hmem : (key, value) ∈ m) : m.lookup key = some value := by
  induction m with
  | nil => simp at hmem
  | cons head tail ih =>
    obtain ⟨headKey, headValue⟩ := head
    simp only [List.map_cons, List.nodup_cons] at hkeys
    rcases List.mem_cons.mp hmem with heq | htail
    · cases heq
      simp [List.lookup]
    · have hne : key ≠ headKey := by
        intro h
        exact hkeys.1 (h ▸ List.mem_map_of_mem Prod.fst htail)
      have hbeq : (key == headKey) = false := by simpa using hne
      simp only [List.lookup, hbeq]
      exact ih hkeys.2 htail

theorem sortedKeys_strict (keys : List String) (hkeys : keys.Nodup) :
    (keys.insertionSort goStringLE).Pairwise goStringLT := by
  haveI : IsTotal String goStringLE := ⟨fun a b => le_total a.data b.data⟩
  haveI : IsTrans String goStringLE := ⟨fun a b c hab hbc => le_trans (α := List Char) hab hbc⟩
  have hsorted : (keys.insertionSort goStringLE).Pairwise goStringLE :=
    List.sorted_insertionSort goStringLE keys
  have hnodup : (keys.insertionSort goStringLE).Pairwise (· ≠ ·) :=
    ((List.perm_insertionSort goStringLE keys).nodup_iff).mpr hkeys
  refine (hsorted.and hnodup).imp ?_
  intro a b hab
  exact lt_of_le_of_ne (α := List Char) hab.1 (fun h => hab.2 (String.ext h))

theorem mapToDockerEnv_entries (m : StringMap) (hkeys : (m.map Prod.fst).Nodup) :
    ∃ entries : StringMap, entries.Perm m ∧
      entries.Pairwise (fun a b => goStringLT a.1 b.1) ∧
      mapToDockerEnv m = entries.map dockerEnvEntry := by
  refine ⟨((m.map Prod.fst).insertionSort goStringLE).map
    (fun key => (key, (m.lookup key).getD "")), ?_, ?_, ?_⟩
  · have hperm := (List.perm_insertionSort goStringLE (m.map Prod.fst)).map
      (fun key => (key, (m.lookup key).getD ""))
    refine hperm.trans ?_
    rw [List.map_map]
    have hid : m.map ((fun key => (key, (m.lookup key).getD "")) ∘ Prod.fst) = m.map id := by
      apply List.map_congr_left
      intro entry hentry
      obtain ⟨key, value⟩ := entry
      simp [lookup_of_mem m hkeys key value hentry]
    rw [hid, List.map_id]
  · rw [List.pairwise_map]
    exact sortedKeys_strict (m.map Prod.fst) hkeys
  · simp [mapToDockerEnv, dockerEnvEntry, List.map_map, Function.comp_def]

theorem entries_unique (a b : StringMap) (hperm : a.Perm b)
    (ha : a.Pairwise (fun x y => goStringLT x.1 y.1))
    (hb : b.Pairwise (fun x y => goStringLT x.1 y.1)) : a = b := by
  haveI : IsAntisymm (String × String) (fun x y => goStringLT x.1 y.1) :=
    ⟨fun x y hxy hyx => absurd hyx (lt_asymm (α := List Char) hxy)⟩
  exact List.eq_of_perm_of_sorted hperm ha hb

/-- C12: for every environment mapping `m` (a list of entries with distinct keys, in the order
the map happens to be iterated), `mapToDockerEnv m` is the list of `key=value` renderings of
the entries of `m`, each entry once, in strictly ascending order of the keys; its length is
the size of `m`; every other iteration order of the same mapping gives the same list; and for
the empty mapping the list is empty. -/
theorem mapToDockerEnv_sorted_by_key (m : StringMap) (hkeys : (m.map Prod.fst).Nodup) :
    (∃ entries : StringMap, entries.Perm m ∧
      entries.Pairwise (fun a b => goStringLT a.1 b.1) ∧
      mapToDockerEnv m = entries.map dockerEnvEntry) ∧
    (mapToDockerEnv m).length = m.length ∧
    (∀ m2 : StringMap, m2.Perm m → mapToDockerEnv m2 = mapToDockerEnv m) ∧
    mapToDockerEnv [] = [] := by
  refine ⟨mapToDockerEnv_entries m hkeys, ?_, ?_, rfl⟩
  · simp [mapToDockerEnv, List.length_insertionSort]
  · intro m2 hperm
    have hkeys2 : (m2.map Prod.fst).Nodup := ((hperm.map Prod.fst).nodup_iff).mpr hkeys
    obtain ⟨e1, hp1, hs1, h1⟩ := mapToDockerEnv_entries m hkeys
    obtain ⟨e2, hp2, hs2, h2⟩ := mapToDockerEnv_entries m2 hkeys2
    rw [h1, h2, entries_unique e2 e1 ((hp2.trans hperm).trans hp1.symm) hs2 hs1]

/-- C12 at a concrete mapping with a non-ASCII key, iterated in two different orders. -/
theorem mapToDockerEnv_sorted_by_key_witness :
    mapToDockerEnv [("VERSION", "1"), ("é", "x=y"), ("TEAM", "t")] =
      ["TEAM=t", "VERSION=1", "é=x=y"] ∧
    mapToDockerEnv [("é", "x=y"), ("TEAM", "t"), ("VERSION", "1")] =
      mapToDockerEnv [("VERSION", "1"), ("é", "x=y"), ("TEAM", "t")] ∧
    (mapToDockerEnv [("VERSION", "1"), ("é", "x=y"), ("TEAM", "t")]).length = 3 :=
  have h := mapToDockerEnv_sorted_by_key [("VERSION", "1"), ("é", "x=y"), ("TEAM", "t")]
    (by decide)
  ⟨by decide, h.2.2.1 _ (by decide), h.2.1⟩

/-! ## `ParseArgs` -/

theorem positionalArgs_flag (arg : String) (rest : List String)
    (hflag : arg = "-p" ∨ arg = "--plan-only") :
    positionalArgs (arg :: rest) = positionalArgs rest ∧
      (arg :: rest).any isPlanOnlyFlag = true := by
  have h : isPlanOnlyFlag arg = true := by simpa [isPlanOnlyFlag] using hflag
  simp [positionalArgs, h]

theorem positionalArgs_positional (arg : String) (rest : List String)
    (hflag : ¬ (arg = "-p" ∨ arg = "--plan-only")) :
    positionalArgs (arg :: rest) = arg :: positionalArgs rest ∧
      (arg :: rest).any isPlanOnlyFlag = rest.any isPlanOnlyFlag := by
  have h : isPlanOnlyFlag arg = false := by simpa [isPlanOnlyFlag] using hflag
  simp [positionalArgs, h]

theorem parseArgsLoop_full (args : List String) (result : CommandArgs)
    (henv : result.EnvName ≠ "") (hversion : result.Version ≠ "") :
    parseArgsLoop args result =
      match positionalArgs args with
      | [] => some { result with PlanOnly := result.PlanOnly || args.any isPlanOnlyFlag }
      | _ :: _ => none := by
  induction args generalizing result with
  | nil => simp [parseArgsLoop, positionalArgs]
  | cons arg rest ih =>
    by_cases hflag : arg = "-p" ∨ arg = "--plan-only"
    · have hstep : parseArgsLoop (arg :: rest) result =
          parseArgsLoop rest { result with PlanOnly := true } := by
        simp [parseArgsLoop, hflag]
      rw [hstep, ih { result with PlanOnly := true } henv hversion, (positionalArgs_flag arg rest hflag).1,
        (positionalArgs_flag arg rest hflag).2]
      generalize positionalArgs rest = ps
      cases ps <;> simp
    · have hstep : parseArgsLoop (arg :: rest) result = none := by
        simp [parseArgsLoop, hflag, henv, hversion]
      rw [hstep, (positionalArgs_positional arg rest hflag).1]

theorem parseArgsLoop_env (args : List String) (result : CommandArgs)
    (hargs : ∀ arg ∈ args, arg ≠ "") (henv : result.EnvName ≠ "") (hversion : result.Version = "") :
    parseArgsLoop args result =
      match positionalArgs args with
      | [] => some { result with PlanOnly := result.PlanOnly || args.any isPlanOnlyFlag }
      | [version] => some { result with
          Version := version, PlanOnly := result.PlanOnly || args.any isPlanOnlyFlag }
      | _ :: _ :: _ => none := by
  induction args generalizing result with
  | nil => simp [parseArgsLoop, positionalArgs]
  | cons arg rest ih =>
    have hrest : ∀ a ∈ rest, a ≠ "" := fun a ha => hargs a (List.mem_cons_of_mem _ ha)
    by_cases hflag : arg = "-p" ∨ arg = "--plan-only"
    · have hstep : parseArgsLoop (arg :: rest) result =
          parseArgsLoop rest { result with PlanOnly := true } := by
        simp [parseArgsLoop, hflag]
      rw [hstep, ih { result with PlanOnly := true } hrest henv hversion, (positionalArgs_flag arg rest hflag).1,
        (positionalArgs_flag arg rest hflag).2]
      generalize positionalArgs rest = ps
      rcases ps with _ | ⟨p1, _ | ⟨p2, ps⟩⟩ <;> simp
    · have harg : arg ≠ "" := hargs arg (List.mem_cons_self _ _)
      have hstep : parseArgsLoop (arg :: rest) result =
          parseArgsLoop rest { result with Version := arg } := by
        simp [parseArgsLoop, hflag, henv, hversion]
      rw [hstep, parseArgsLoop_full rest { result with Version := arg } henv harg, (positionalArgs_positional arg rest hflag).1,
        (positionalArgs_positional arg rest hflag).2]
      generalize positionalArgs rest = ps
      cases ps <;> simp

theorem parseArgsLoop_start (args : List String) (result : CommandArgs)
    (hargs : ∀ arg ∈ args, arg ≠ "") (henv : result.EnvName = "") (hversion : result.Version = "") :
    parseArgsLoop args result =
      match positionalArgs args with
      | [] => some { result with PlanOnly := result.PlanOnly || args.any isPlanOnlyFlag }
      | [envName] => some { result with
          EnvName := envName, PlanOnly := result.PlanOnly || args.any isPlanOnlyFlag }
      | [envName, version] => some { result with
          EnvName := envName, Version := version,
          PlanOnly := result.PlanOnly || args.any isPlanOnlyFlag }
      | _ :: _ :: _ :: _ => none := by
  induction args generalizing result with
  | nil => simp [parseArgsLoop, positionalArgs]
  | cons arg rest ih =>
    have hrest : ∀ a ∈ rest, a ≠ "" := fun a ha => hargs a (List.mem_cons_of_mem _ ha)
    by_cases hflag : arg = "-p" ∨ arg = "--plan-only"
    · have hstep : parseArgsLoop (arg :: rest) result =
          parseArgsLoop rest { result with PlanOnly := true } := by
        simp [parseArgsLoop, hflag]
      rw [hstep, ih { result with PlanOnly := true } hrest henv hversion, (positionalArgs_flag arg rest hflag).1,
        (positionalArgs_flag arg rest hflag).2]
      generalize positionalArgs rest = ps
      rcases ps with _ | ⟨p1, _ | ⟨p2, _ | ⟨p3, ps⟩⟩⟩ <;> simp
    · have harg : arg ≠ "" := hargs arg (List.mem_cons_self _ _)
      have hstep : parseArgsLoop (arg :: rest) result =
          parseArgsLoop rest { result with EnvName := arg } := by
        simp [parseArgsLoop, hflag, henv]
      rw [hstep, parseArgsLoop_env rest { result with EnvName := arg } hrest harg hversion,
        (positionalArgs_positional arg rest hflag).1,
        (positionalArgs_positional arg rest hflag).2]
      generalize positionalArgs rest = ps
      rcases ps with _ | ⟨p1, _ | ⟨p2, ps⟩⟩ <;> simp

theorem positionalArgs_ne_empty (args : List String) (hargs : ∀ arg ∈ args, arg ≠ "") :
    ∀ arg ∈ positionalArgs args, arg ≠ "" := by
  intro arg harg
  exact hargs arg (List.mem_of_mem_filter harg)

/-- C13, as amended: for every argument list that has no empty argument, `ParseArgs` gives
what the specification says: it succeeds if and only if exactly two arguments are positional;
then `EnvName` is the first of them, `Version` the second, `PlanOnly` is true exactly when some
argument is `-p` or `--plan-only`, and `StateShouldExist` points to true; in every other case
the result is `nil, false`. -/
theorem parseArgs_eq_spec (args : List String) (hargs : ∀ arg ∈ args, arg ≠ "") :
    ParseArgs args = specParseArgs args ∧
    ((ParseArgs args).isSome ↔ (positionalArgs args).length = 2) ∧
    (∀ result, ParseArgs args = some result →
      positionalArgs args = [result.EnvName, result.Version] ∧
      (result.PlanOnly = true ↔ ∃ arg ∈ args, arg = "-p" ∨ arg = "--plan-only") ∧
      result.StateShouldExist = some true) := by
  have hloop := parseArgsLoop_start args
    { EnvName := "", Version := "", PlanOnly := false, StateShouldExist := some true }
    hargs rfl rfl
  have hpos := positionalArgs_ne_empty args hargs
  have hspec : ParseArgs args = specParseArgs args := by
    simp only [ParseArgs, specParseArgs, hloop]
    generalize positionalArgs args = ps at hpos
    rcases ps with _ | ⟨p1, _ | ⟨p2, _ | ⟨p3, ps⟩⟩⟩
    · simp
    · have h1 : p1 ≠ "" := hpos p1 (by simp)
      simp [h1]
    · have h1 : p1 ≠ "" := hpos p1 (by simp)
      have h2 : p2 ≠ "" := hpos p2 (by simp)
      simp [h1, h2]
    · simp
  refine ⟨hspec, ?_, ?_⟩
  · rw [hspec]
    simp only [specParseArgs]
    generalize positionalArgs args = ps
    rcases ps with _ | ⟨p1, _ | ⟨p2, _ | ⟨p3, ps⟩⟩⟩ <;> simp
  · intro result hresult
    rw [hspec] at hresult
    simp only [specParseArgs] at hresult
    generalize positionalArgs args = ps at hresult
    rcases ps with _ | ⟨p1, _ | ⟨p2, _ | ⟨p3, ps⟩⟩⟩ <;> simp at hresult
    subst hresult
    simp [isPlanOnlyFlag]

/-- C13 at a concrete argument list: the flag in the middle, two positional arguments. -/
theorem parseArgs_eq_spec_witness :
    ParseArgs ["live", "--plan-only", "1"] = some ⟨"live", "1", true, some true⟩ ∧
    (positionalArgs ["live", "--plan-only", "1"]).length = 2 :=
  have h := parseArgs_eq_spec ["live", "--plan-only", "1"] (by decide)
  ⟨h.1.trans (by decide), h.2.1.mp (by rw [h.1]; decide)⟩

/-- C13 as stated fails on empty arguments. With the three positional arguments `""`, `live`
and `1`, `ParseArgs` succeeds and `EnvName` is the second of them; with the two positional
arguments `live` and `""`, `ParseArgs` fails. -/
theorem parseArgs_empty_argument :
    positionalArgs ["", "live", "1"] = ["", "live", "1"] ∧
    specParseArgs ["", "live", "1"] = none ∧
    ParseArgs ["", "live", "1"] = some ⟨"live", "1", false, some true⟩ ∧
    positionalArgs ["live", ""] = ["live", ""] ∧
    specParseArgs ["live", ""] = some ⟨"live", "", false, some true⟩ ∧
    ParseArgs ["live", ""] = none := by
  decide

end Cdflow2
